import Mathlib

/-!
Verification of the Cypher2Sql repository against its specification.

The repository is shallowly embedded: Python strings become `List Char`,
`dict`s (which preserve insertion order) become association lists,
fallible code returns `Except`, and Python's distinct runtime exception
classes become constructors of explicit error types.  Each definition is
translated from the corresponding source function; its doc comment names
the source location.
-/

namespace Cypher2Sql

/-- Python `str.isspace` / regex whitespace on the ASCII range: space, tab,
newline, carriage return, vertical tab, form feed. -/
def pyIsSpace (c : Char) : Bool :=
  c = ' ' || c = '\t' || c = '\n' || c = '\r' || c = '\x0b' || c = '\x0c'

/-- Python `str.lower` restricted to ASCII, as used by the repository
(labels and SQL text are ASCII). -/
def pyLower (s : List Char) : List Char := s.map Char.toLower

/-- Python `str.upper` restricted to ASCII. -/
def pyUpper (s : List Char) : List Char := s.map Char.toUpper

/-- Taking a while-matched part of a list never lengthens it. -/
theorem takeWhile_length_le {α : Type} (p : α → Bool) (l : List α) :
    (l.takeWhile p).length ≤ l.length := by
  induction l with
  | nil => simp [List.takeWhile]
  | cons x xs ih =>
    simp only [List.takeWhile]
    split
    · simpa using ih
    · simp

/-- Dropping a while-matched part of a list never lengthens it. -/
theorem dropWhile_length_le {α : Type} (p : α → Bool) (l : List α) :
    (l.dropWhile p).length ≤ l.length := by
  induction l with
  | nil => simp [List.dropWhile]
  | cons x xs ih =>
    simp only [List.dropWhile]
    split
    · exact Nat.le_succ_of_le ih
    · exact Nat.le_refl _

/-- Python `str.split()` with no separator: split on runs of whitespace,
discarding empty pieces. -/
def pySplitWs : List Char → List (List Char)
  | [] => []
  | c :: rest =>
    if pyIsSpace c then pySplitWs rest
    else (c :: rest.takeWhile (fun d => !pyIsSpace d)) ::
      pySplitWs (rest.dropWhile (fun d => !pyIsSpace d))
termination_by s => s.length
decreasing_by
  · simp only [List.length_cons]; omega
  · simp only [List.length_cons]
    exact Nat.lt_succ_of_le (dropWhile_length_le _ _)

/-- Python `' '.join(pieces)`. -/
def joinWithSpace (pieces : List (List Char)) : List Char :=
  List.intercalate [' '] pieces

/-- `' '.join(s.lower().split())` — the normalization applied by
`EquivalenceVerifier._verify_with_verieql` (src/backend/core/verifier.py). -/
def sqlNormalize (s : List Char) : List Char :=
  joinWithSpace (pySplitWs (pyLower s))

-- ===========================================================================
-- Backend verifier, normalization path (src/backend/core/verifier.py)
-- ===========================================================================

/-- `VerificationResult` enum (src/backend/core/verifier.py, lines 8-12). -/
inductive VerificationResult where
  | EQUIVALENT
  | NOT_EQUIVALENT
  | UNKNOWN
  | TIMEOUT
deriving DecidableEq, Repr

/-- `EquivalenceReport` dataclass (src/backend/core/verifier.py, lines 14-20);
only the fields this fragment assigns are carried (time_ms is set by the
caller and not relevant here). -/
structure EquivalenceReport where
  result : VerificationResult
  checked_bound : Option Nat
deriving DecidableEq, Repr

/-- `EquivalenceVerifier._verify_with_verieql` (src/backend/core/verifier.py,
lines 54-75): normalize both SQL texts by lowercasing and collapsing
whitespace, then compare the normalized strings; `checked_bound` is the
constant 20.  The `timeout` parameter is accepted and never read. -/
def verifyWithVerieql (sql1 sql2 : List Char) (timeout : Nat) : EquivalenceReport :=
  let _ := timeout
  let norm1 := sqlNormalize sql1
  let norm2 := sqlNormalize sql2
  let result := if norm1 = norm2 then VerificationResult.EQUIVALENT
                else VerificationResult.NOT_EQUIVALENT
  { result := result, checked_bound := some 20 }

-- ===========================================================================
-- Backend symbolic worker (src/backend/core/cli_verieql.py and
-- src/backend/core/environment.py)
-- ===========================================================================

/-- Modelled from the spec: the `STATE` enum lives in the backend's
`constants` module, which is not part of the source tree (only its uses in
src/backend/core/cli_verieql.py are).  The spec's verdict list (§4.7) and
the worker's uses (`EQUIV`, `NON_EQUIV`, `TIMEOUT`, `SYN_ERR`,
`NOT_SUP_ERR`, `UNKNOWN`, `NOT_IMPL_ERR`, `OTHER_ERR`, `OOM`) give its
distinct members. -/
inductive STATE where
  | EQUIV
  | NON_EQUIV
  | TIMEOUT
  | SYN_ERR
  | NOT_SUP_ERR
  | UNKNOWN
  | NOT_IMPL_ERR
  | OTHER_ERR
  | OOM
deriving DecidableEq, Repr

/-- The value returned by `Environment.analyze`
(src/backend/core/environment.py): the Python function returns `-1` for the
column-count mismatch and otherwise the boolean solver verdict. -/
inductive AnalyzeResult where
  | negOne
  | boolTrue
  | boolFalse
deriving DecidableEq, Repr

/-- An encoded output relation's head tuple, as consumed by
`Environment.compare` (src/backend/core/environment.py, lines 1117-1124):
only its `name` and the length of its `attributes` list matter for the
column-count check, so attributes are carried as an abstract list. -/
structure OutTuple (α : Type) where
  name : List Char
  attributes : List α

/-- The string `'DELETED_TUPLE'` used by `Environment.compare`. -/
def deletedTupleName : List Char := "DELETED_TUPLE".toList

/-- The column-count guard of `Environment.compare`
(src/backend/core/environment.py, lines 1122-1124): `-1` is returned when
neither tuple is the deleted tuple and the attribute counts differ. -/
def compareColumnMismatch {α : Type} (lhs rhs : OutTuple α) : Bool :=
  lhs.name ≠ deletedTupleName && rhs.name ≠ deletedTupleName &&
    lhs.attributes.length ≠ rhs.attributes.length

/-- `Environment.analyze`'s final step (src/backend/core/environment.py,
lines 1091-1096 together with `compare`): when the column-count guard
fires, `-1` is returned immediately and the solver is never consulted;
otherwise the result is whatever the solver phase produces, abstracted here
as the `solverResult` argument. -/
def analyzeOutcome {α : Type} (solverResult : AnalyzeResult)
    (lhs rhs : OutTuple α) : AnalyzeResult :=
  if compareColumnMismatch lhs rhs then AnalyzeResult.negOne else solverResult

/-- The classification in `verify` (src/backend/core/cli_verieql.py, lines
57-61): `if result == False: raise NotEquivalenceError()` (caught as
`STATE.NON_EQUIV`) `else: state = STATE.EQUIV`.  In Python `-1 == False`
is false, so only the exact boolean `False` reaches `NON_EQUIV`. -/
def classifyAnalyzeResult : AnalyzeResult → STATE
  | AnalyzeResult.boolFalse => STATE.NON_EQUIV
  | _ => STATE.EQUIV

/-- The bounded-search ladder `process_ends_with_max_timeout`
(src/backend/core/cli_verieql.py, lines 95-162), with wall-clock time
abstracted to a budget of completed runs (`fuel`): the run at index `i`
(bound `states.length + 1`) is consulted through the oracle `outcome`; on
`EQUIV` the next run is started at the next bound, on anything else the
loop breaks; when the budget is exhausted before the running process
finishes, `TIMEOUT` is appended. -/
def ladder (outcome : Nat → STATE) : Nat → List STATE → List STATE
  | 0, states => states ++ [STATE.TIMEOUT]
  | fuel + 1, states =>
    let s := outcome states.length
    if s = STATE.EQUIV then ladder outcome fuel (states ++ [s])
    else states ++ [s]

-- ===========================================================================
-- Python runtime errors raised by the graphiti package
-- ===========================================================================

/-- The Python exception classes raised by the graphiti modules, one
constructor per class. `parseError` is `parser_fw.ParseError`. -/
inductive PyErr where
  | keyError (msg : String)
  | valueError (msg : String)
  | typeError (msg : String)
  | notImplementedError (msg : String)
  | attributeError (msg : String)
  | indexError (msg : String)
  | parseError (msg : String)
deriving DecidableEq, Repr

/-- Python `str.lower` on a `String` (ASCII). -/
def strLower (s : String) : String := ⟨pyLower s.data⟩

/-- Python `str.upper` on a `String` (ASCII). -/
def strUpper (s : String) : String := ⟨pyUpper s.data⟩

-- ===========================================================================
-- Graph schema (src/graphiti/schema/graph_schema.py)
-- ===========================================================================

/-- `NodeType` (src/graphiti/schema/graph_schema.py): label and ordered key
list.  `__post_init__` rejects an empty label or key list, so a constructed
value always has at least one key; theorems carry that as a hypothesis. -/
structure NodeType where
  label : String
  keys : List String
deriving DecidableEq, Repr

/-- `NodeType.default_key`: the first key (`keys[0]`). -/
def NodeType.default_key (n : NodeType) : String := n.keys.headI

/-- `EdgeType` (src/graphiti/schema/graph_schema.py). -/
structure EdgeType where
  label : String
  src_label : String
  tgt_label : String
  keys : List String
deriving DecidableEq, Repr

/-- `EdgeType.default_key`: the first key. -/
def EdgeType.default_key (e : EdgeType) : String := e.keys.headI

/-- `GraphSchema`: Python dicts keyed by label, iterated in insertion
order, so embedded as insertion-order lists.  `add_node`/`add_edge` keep
labels unique and edge endpoints present; theorems that need those
invariants state them as hypotheses. -/
structure GraphSchema where
  nodes : List NodeType
  edges : List EdgeType
deriving DecidableEq, Repr

-- ===========================================================================
-- Relational schema (src/graphiti/schema/relational_schema.py)
-- ===========================================================================

/-- `Table` (src/graphiti/schema/relational_schema.py): `fks` is a Python
dict from attribute name to `(foreign_table, foreign_pk)`, embedded as an
insertion-order association list. -/
structure Table where
  name : String
  attrs : List String
  pk : String
  fks : List (String × String × String) := []
deriving DecidableEq, Repr

/-- `RelationalSchema`: a dict from table name to `Table`, embedded as an
insertion-order association list. -/
structure RelationalSchema where
  tables : List (String × Table) := []
deriving DecidableEq, Repr

/-- `RelationalSchema.add_table`: reject a duplicate name
(`ValueError`), otherwise insert at the end. -/
def RelationalSchema.add_table (rs : RelationalSchema) (t : Table) :
    Except PyErr RelationalSchema :=
  if (rs.tables.lookup t.name).isSome then
    Except.error (PyErr.valueError ("Bảng " ++ t.name ++ " đã tồn tại trong lược đồ"))
  else
    Except.ok ⟨rs.tables ++ [(t.name, t)]⟩

/-- `RelationalSchema.get_table`: lookup by name, `KeyError` when absent. -/
def RelationalSchema.get_table (rs : RelationalSchema) (name : String) :
    Except PyErr Table :=
  match rs.tables.lookup name with
  | some t => Except.ok t
  | none => Except.error (PyErr.keyError ("Không tìm thấy bảng " ++ name))

-- ===========================================================================
-- SDT (src/graphiti/schema/sdt.py)
-- ===========================================================================

/-- `SDTRule`: a pair of predicates, each a name with an argument list. -/
structure SDTRule where
  left_pred : String × List String
  right_pred : String × List String
deriving DecidableEq, Repr

/-- `SDT.rules`: the ordered rule list (the `SDT` dataclass is a plain
wrapper around it; `add_rule` appends). -/
abbrev SDT := List SDTRule

-- ===========================================================================
-- InferSDT (src/graphiti/pipeline/infer_sdt.py)
-- ===========================================================================

/-- `InferResult` (src/graphiti/pipeline/infer_sdt.py). -/
structure InferResult where
  schema : RelationalSchema
  sdt : SDT
deriving DecidableEq, Repr

/-- The node loop of `infer_sdt` (src/graphiti/pipeline/infer_sdt.py,
lines 32-41): one table and one rule per `NodeType`, in order. -/
def inferNodes : List NodeType → RelationalSchema → SDT →
    Except PyErr (RelationalSchema × SDT)
  | [], tables, rules => Except.ok (tables, rules)
  | node :: rest, tables, rules => do
    let table_name := strLower node.label
    let table : Table := { name := table_name, attrs := node.keys, pk := node.default_key }
    let tables ← tables.add_table table
    inferNodes rest tables
      (rules ++ [{ left_pred := (node.label, node.keys), right_pred := (table_name, node.keys) }])

/-- The edge loop of `infer_sdt` (src/graphiti/pipeline/infer_sdt.py,
lines 44-61): each edge table appends `SRC`/`TGT` to the edge keys,
resolves the source and target node tables, and installs the two foreign
keys before the table is added. -/
def inferEdges : List EdgeType → RelationalSchema → SDT →
    Except PyErr (RelationalSchema × SDT)
  | [], tables, rules => Except.ok (tables, rules)
  | edge :: rest, tables, rules => do
    let table_name := strLower edge.label
    let attrs := edge.keys ++ ["SRC", "TGT"]
    let src_table ← tables.get_table (strLower edge.src_label)
    let tgt_table ← tables.get_table (strLower edge.tgt_label)
    let table : Table :=
      { name := table_name, attrs := attrs, pk := edge.default_key,
        fks := [("SRC", src_table.name, src_table.pk), ("TGT", tgt_table.name, tgt_table.pk)] }
    let tables ← tables.add_table table
    inferEdges rest tables
      (rules ++ [{ left_pred := (edge.label, edge.keys ++ ["SRC", "TGT"]),
                   right_pred := (table_name, attrs) }])

/-- `infer_sdt` (src/graphiti/pipeline/infer_sdt.py, lines 19-63): nodes
first, then edges. -/
def infer_sdt (g : GraphSchema) : Except PyErr InferResult := do
  let (tables, rules) ← inferNodes g.nodes ⟨[]⟩ []
  let (tables, rules) ← inferEdges g.edges tables rules
  Except.ok { schema := tables, sdt := rules }

-- ===========================================================================
-- Cypher AST (src/graphiti/cypher/ast.py)
-- ===========================================================================

/-- `NodePat`: `(var:LABEL)`. -/
structure NodePat where
  var : String
  label : String
deriving DecidableEq, Repr

/-- `EdgePat`: direction is one of the strings `"->"`, `"<-"`, `"--"`. -/
structure EdgePat where
  var : String
  label : String
  direction : String
deriving DecidableEq, Repr

/-- An element of a `PathPat.items` sequence
(`Union[NodePat, EdgePat]`). -/
inductive PatItem where
  | node (p : NodePat)
  | edge (p : EdgePat)
deriving DecidableEq, Repr

/-- Duck-typed `.var` access: both pattern classes have the attribute. -/
def PatItem.var : PatItem → String
  | PatItem.node p => p.var
  | PatItem.edge p => p.var

/-- Duck-typed `.label` access: both pattern classes have the attribute. -/
def PatItem.label : PatItem → String
  | PatItem.node p => p.label
  | PatItem.edge p => p.label

/-- `PathPat`. -/
structure PathPat where
  items : List PatItem
deriving DecidableEq, Repr

/-- `Expr = Union[ExprProp, ExprAgg, ExprVar, int, str, float]`.  Numeric
literals are carried as `Int` (the parser of this repository only produces
ints; a float literal would follow the same `number` path in the
transpiler). -/
inductive CyExpr where
  | prop (var key : String)
  | agg (fn : String) (e : CyExpr)
  | evar (name : String)
  | intLit (n : Int)
  | strLit (s : String)
deriving DecidableEq, Repr

/-- `Predicate = Union[PredicateCompare, PredicateAnd, PredicateOr,
PredicateNot]`. -/
inductive CyPred where
  | cmp (left : CyExpr) (op : String) (right : CyExpr)
  | andP (left right : CyPred)
  | orP (left right : CyPred)
  | notP (sub : CyPred)
deriving DecidableEq, Repr

/-- `Clause = Union[ClauseMatch, ClauseOptMatch, ClauseWith]`.  In Python
`ClauseOptMatch` is a subclass of `ClauseMatch`; the embedding keeps them
as separate constructors and models the subclass relation at each
`isinstance` site. -/
inductive Clause where
  | matchC (pattern : PathPat) (whereP : Option CyPred)
  | optMatchC (pattern : PathPat) (whereP : Option CyPred)
  | withC (prev : Clause) (keep_vars rename_to : List String)
deriving DecidableEq, Repr

/-- `Query = Union[ReturnQuery, OrderBy, UnionQuery]`. -/
inductive Query where
  | returnQ (clause : Clause) (exprs : List CyExpr) (names : List String)
  | orderQ (sub : Query) (key : CyExpr) (asc : Bool)
  | unionQ (left right : Query) (allFlag : Bool)
deriving DecidableEq, Repr

-- ===========================================================================
-- SQL IR (src/graphiti/sqlir/ir.py)
-- ===========================================================================

/-- `SQLExpr` (src/graphiti/sqlir/ir.py): the source stores a kind string
plus an args tuple; every value is built through the four helpers of
src/graphiti/pipeline/transpile.py (`expr_column`, `expr_star`,
`expr_literal`, `expr_func`), so the embedding has one constructor per
built kind.  Python's structural (and `repr`-string) equality on these
values coincides with constructor equality. -/
inductive SQLExpr where
  | column (aliasName col : String)
  | star
  | number (n : Int)
  | stringLit (s : String)
  | func (name : String) (args : List SQLExpr)
deriving Repr

mutual

/-- Decidable structural equality on `SQLExpr` (the nested `args` list
prevents automatic derivation). -/
def SQLExpr.decEq : (a b : SQLExpr) → Decidable (a = b)
  | SQLExpr.column a1 c1, SQLExpr.column a2 c2 =>
    match String.decEq a1 a2, String.decEq c1 c2 with
    | isTrue h1, isTrue h2 => isTrue (by rw [h1, h2])
    | isFalse h1, _ => isFalse (fun h => by injection h; contradiction)
    | _, isFalse h2 => isFalse (fun h => by injection h; contradiction)
  | SQLExpr.star, SQLExpr.star => isTrue rfl
  | SQLExpr.number n1, SQLExpr.number n2 =>
    match Int.decEq n1 n2 with
    | isTrue h => isTrue (by rw [h])
    | isFalse h => isFalse (fun hh => by injection hh; contradiction)
  | SQLExpr.stringLit s1, SQLExpr.stringLit s2 =>
    match String.decEq s1 s2 with
    | isTrue h => isTrue (by rw [h])
    | isFalse h => isFalse (fun hh => by injection hh; contradiction)
  | SQLExpr.func n1 args1, SQLExpr.func n2 args2 =>
    match String.decEq n1 n2, SQLExpr.decEqList args1 args2 with
    | isTrue h1, isTrue h2 => isTrue (by rw [h1, h2])
    | isFalse h1, _ => isFalse (fun h => by injection h; contradiction)
    | _, isFalse h2 => isFalse (fun h => by injection h; contradiction)
  | SQLExpr.column _ _, SQLExpr.star => isFalse nofun
  | SQLExpr.column _ _, SQLExpr.number _ => isFalse nofun
  | SQLExpr.column _ _, SQLExpr.stringLit _ => isFalse nofun
  | SQLExpr.column _ _, SQLExpr.func _ _ => isFalse nofun
  | SQLExpr.star, SQLExpr.column _ _ => isFalse nofun
  | SQLExpr.star, SQLExpr.number _ => isFalse nofun
  | SQLExpr.star, SQLExpr.stringLit _ => isFalse nofun
  | SQLExpr.star, SQLExpr.func _ _ => isFalse nofun
  | SQLExpr.number _, SQLExpr.column _ _ => isFalse nofun
  | SQLExpr.number _, SQLExpr.star => isFalse nofun
  | SQLExpr.number _, SQLExpr.stringLit _ => isFalse nofun
  | SQLExpr.number _, SQLExpr.func _ _ => isFalse nofun
  | SQLExpr.stringLit _, SQLExpr.column _ _ => isFalse nofun
  | SQLExpr.stringLit _, SQLExpr.star => isFalse nofun
  | SQLExpr.stringLit _, SQLExpr.number _ => isFalse nofun
  | SQLExpr.stringLit _, SQLExpr.func _ _ => isFalse nofun
  | SQLExpr.func _ _, SQLExpr.column _ _ => isFalse nofun
  | SQLExpr.func _ _, SQLExpr.star => isFalse nofun
  | SQLExpr.func _ _, SQLExpr.number _ => isFalse nofun
  | SQLExpr.func _ _, SQLExpr.stringLit _ => isFalse nofun

/-- Decidable equality on lists of `SQLExpr`. -/
def SQLExpr.decEqList : (a b : List SQLExpr) → Decidable (a = b)
  | [], [] => isTrue rfl
  | [], _ :: _ => isFalse nofun
  | _ :: _, [] => isFalse nofun
  | x :: xs, y :: ys =>
    match SQLExpr.decEq x y, SQLExpr.decEqList xs ys with
    | isTrue h1, isTrue h2 => isTrue (by rw [h1, h2])
    | isFalse h1, _ => isFalse (fun h => by injection h; contradiction)
    | _, isFalse h2 => isFalse (fun h => by injection h; contradiction)

end

instance : DecidableEq SQLExpr := SQLExpr.decEq

/-- `Predicate` of the SQL IR (src/graphiti/sqlir/ir.py), built through
`pred_cmp`, `pred_and`, `pred_or`, `pred_not`. -/
inductive SQLPred where
  | cmp (op : String) (left right : SQLExpr)
  | andP (left right : SQLPred)
  | orP (left right : SQLPred)
  | notP (sub : SQLPred)
deriving DecidableEq, Repr

/-- `SQL` union of IR nodes (src/graphiti/sqlir/ir.py). -/
inductive SQL where
  | fromTable (table aliasName : String)
  | join (left right : SQL) (onPred : SQLPred) (kind : String)
  | project (sub : SQL) (items : List (String × SQLExpr))
  | groupBy (sub : SQL) (keys : List SQLExpr) (items : List (String × SQLExpr))
      (having : Option SQLPred)
  | select (sub : SQL) (pred : SQLPred)
  | withCTE (name : String) (sub body : SQL)
  | unionIR (left right : SQL) (allFlag : Bool)
  | orderByIR (sub : SQL) (key : SQLExpr) (asc : Bool)
deriving DecidableEq, Repr

-- ===========================================================================
-- Transpiler (src/graphiti/pipeline/transpile.py)
-- ===========================================================================

/-- `expr_column` (src/graphiti/pipeline/transpile.py, line 16). -/
def expr_column (aliasName column : String) : SQLExpr := SQLExpr.column aliasName column

/-- `expr_star` (line 22). -/
def expr_star : SQLExpr := SQLExpr.star

/-- `expr_literal` on an int (line 28): kind `number`. -/
def expr_literal_int (n : Int) : SQLExpr := SQLExpr.number n

/-- `expr_literal` on a str (line 28): kind `string`. -/
def expr_literal_str (s : String) : SQLExpr := SQLExpr.stringLit s

/-- `expr_func` (line 35): the function name is uppercased. -/
def expr_func (name : String) (args : List SQLExpr) : SQLExpr :=
  SQLExpr.func (strUpper name) args

/-- `pred_cmp` (line 41). -/
def pred_cmp (op : String) (left right : SQLExpr) : SQLPred := SQLPred.cmp op left right

/-- `pred_and` (line 45). -/
def pred_and (left right : SQLPred) : SQLPred := SQLPred.andP left right

/-- `pred_or` (line 49). -/
def pred_or (left right : SQLPred) : SQLPred := SQLPred.orP left right

/-- `pred_not` (line 53). -/
def pred_not (sub : SQLPred) : SQLPred := SQLPred.notP sub

/-- `_resolve_node_table` (src/graphiti/pipeline/transpile.py, lines
204-208): lowercase the label, look it up, and re-raise a `KeyError`
naming the `NodeType` on failure. -/
def resolveNodeTable (label : String) (rs : RelationalSchema) : Except PyErr Table :=
  match rs.get_table (strLower label) with
  | Except.ok t => Except.ok t
  | Except.error _ =>
    Except.error (PyErr.keyError ("Không tìm thấy bảng cho NodeType " ++ label))

/-- `_resolve_edge_table` (lines 211-215). -/
def resolveEdgeTable (label : String) (rs : RelationalSchema) : Except PyErr Table :=
  match rs.get_table (strLower label) with
  | Except.ok t => Except.ok t
  | Except.error _ =>
    Except.error (PyErr.keyError ("Không tìm thấy bảng cho EdgeType " ++ label))

/-- `set.add` on the `vars_available` set, kept as a duplicate-free list
(the set's iteration order is never observed by the transpiler). -/
def insertVar (v : String) (vs : List String) : List String :=
  if v ∈ vs then vs else vs ++ [v]

/-- The `while` loop of `transpile_pattern` (src/graphiti/pipeline/
transpile.py, lines 132-160).  Python reads `items[idx]` as the edge and
`items[idx+1]` as the node without type checks: a missing second element
is an `IndexError`, and a first element without a `direction` attribute
(a `NodePat`) is an `AttributeError`, raised after the two table
resolutions, matching the source's evaluation order. -/
def patternLoop (rs : RelationalSchema) (outer : Bool) :
    List PatItem → String → Table → List String → SQL →
    Except PyErr (List String × SQL)
  | [], _, _, vars, rel => Except.ok (vars, rel)
  | [_], _, _, _, _ => Except.error (PyErr.indexError "list index out of range")
  | x :: y :: rest, prevVar, prevTable, vars, rel => do
    let edge_table ← resolveEdgeTable x.label rs
    let node_table ← resolveNodeTable y.label rs
    let join_kind := if outer then "left" else "inner"
    let e ← (match x with
      | PatItem.edge ep => Except.ok ep
      | PatItem.node _ =>
        Except.error (PyErr.attributeError "NodePat object has no attribute direction"))
    let first_on :=
      if e.direction = "<-" then
        pred_cmp "=" (expr_column prevVar prevTable.pk) (expr_column e.var "TGT")
      else
        pred_cmp "=" (expr_column prevVar prevTable.pk) (expr_column e.var "SRC")
    let rel := SQL.join rel (SQL.fromTable edge_table.name e.var) first_on join_kind
    let vars := insertVar e.var vars
    let second_on :=
      if e.direction = "<-" then
        pred_cmp "=" (expr_column e.var "SRC") (expr_column y.var node_table.pk)
      else
        pred_cmp "=" (expr_column e.var "TGT") (expr_column y.var node_table.pk)
    let rel := SQL.join rel (SQL.fromTable node_table.name y.var) second_on join_kind
    let vars := insertVar y.var vars
    patternLoop rs outer rest y.var node_table vars rel

/-- `transpile_pattern` (src/graphiti/pipeline/transpile.py, lines
118-162): seed with the first node's table, then run the segment loop. -/
def transpile_pattern (pat : PathPat) (rs : RelationalSchema) (outer : Bool) :
    Except PyErr (List String × SQL) :=
  match pat.items with
  | PatItem.node node0 :: rest => do
    let table0 ← resolveNodeTable node0.label rs
    patternLoop rs outer rest node0.var table0 [node0.var]
      (SQL.fromTable table0.name node0.var)
  | _ => Except.error (PyErr.valueError "Pattern phải bắt đầu bằng NodePat")

/-- `to_sql_expr` (src/graphiti/pipeline/transpile.py, lines 165-181). -/
def to_sql_expr : CyExpr → Except PyErr SQLExpr
  | CyExpr.prop v k => Except.ok (expr_column v k)
  | CyExpr.agg fn e => do
    let inner ← to_sql_expr e
    Except.ok (expr_func fn [inner])
  | CyExpr.evar _ =>
    Except.error (PyErr.notImplementedError
      "ExprVar chưa được hỗ trợ trong bản transpiler tối giản")
  | CyExpr.intLit n => Except.ok (expr_literal_int n)
  | CyExpr.strLit s =>
    if s = "*" then Except.ok expr_star else Except.ok (expr_literal_str s)

/-- `to_sql_pred` (lines 184-197). -/
def to_sql_pred : CyPred → Except PyErr SQLPred
  | CyPred.cmp l op r => do
    let left ← to_sql_expr l
    let right ← to_sql_expr r
    Except.ok (pred_cmp op left right)
  | CyPred.andP l r => do
    let left ← to_sql_pred l
    let right ← to_sql_pred r
    Except.ok (pred_and left right)
  | CyPred.orP l r => do
    let left ← to_sql_pred l
    let right ← to_sql_pred r
    Except.ok (pred_or left right)
  | CyPred.notP s => do
    let sub ← to_sql_pred s
    Except.ok (pred_not sub)

/-- `is_agg_expr` (lines 200-201): a top-level `ExprAgg`. -/
def is_agg_expr : CyExpr → Bool
  | CyExpr.agg _ _ => true
  | _ => false

/-- `transpile_clause` (src/graphiti/pipeline/transpile.py, lines 97-115).
The first branch tests `isinstance(clause, ast.ClauseMatch)`, and in
Python `ClauseOptMatch` is a subclass of `ClauseMatch`, so BOTH clause
kinds take that branch with `outer=False`; the source's dedicated
`ClauseOptMatch` branch (with `outer=True`) is unreachable. -/
def transpile_clause (sdt : SDT) (rs : RelationalSchema) (c : Clause) :
    Except PyErr (List String × SQL) :=
  let _ := sdt
  match c with
  | Clause.matchC pat wh => do
    let (vars, rel) ← transpile_pattern pat rs false
    match wh with
    | some p => do
      let sp ← to_sql_pred p
      Except.ok (vars, SQL.select rel sp)
    | none => Except.ok (vars, rel)
  | Clause.optMatchC pat wh => do
    -- Captured by the isinstance(ClauseMatch) branch at run time, hence
    -- outer := false here as well.
    let (vars, rel) ← transpile_pattern pat rs false
    match wh with
    | some p => do
      let sp ← to_sql_pred p
      Except.ok (vars, SQL.select rel sp)
    | none => Except.ok (vars, rel)
  | Clause.withC _ _ _ =>
    Except.error (PyErr.notImplementedError
      "Clause WITH chưa được hỗ trợ trong bản tối giản")

/-- The key-deduplication loop of `transpile_query` (lines 74-81): Python
keeps the first occurrence of each `repr` string; `repr` is injective on
the embedded `SQLExpr` values, so this is deduplication by structural
equality. -/
def dedupKeys (keys : List SQLExpr) : List SQLExpr :=
  keys.foldl (fun acc k => if k ∈ acc then acc else acc ++ [k]) []

/-- `transpile_query` (src/graphiti/pipeline/transpile.py, lines 62-94). -/
def transpile_query (sdt : SDT) (rs : RelationalSchema) : Query → Except PyErr SQL
  | Query.returnQ clause exprs names => do
    let (_, base) ← transpile_clause sdt rs clause
    let sql_exprs ← exprs.mapM to_sql_expr
    let items := names.zip sql_exprs
    if exprs.any is_agg_expr then do
      let keys ← (exprs.filter (fun e => !is_agg_expr e)).mapM to_sql_expr
      Except.ok (SQL.groupBy base (dedupKeys keys) items none)
    else
      Except.ok (SQL.project base items)
  | Query.orderQ sub key asc => do
    let s ← transpile_query sdt rs sub
    let k ← to_sql_expr key
    Except.ok (SQL.orderByIR s k asc)
  | Query.unionQ l r allFlag => do
    let left ← transpile_query sdt rs l
    let right ← transpile_query sdt rs r
    Except.ok (SQL.unionIR left right allFlag)

-- ===========================================================================
-- Cypher parser (src/graphiti/cypher/parser_fw.py): string primitives
-- ===========================================================================

/-- Python `str.strip()`: drop leading and trailing whitespace. -/
def pyStrip (s : List Char) : List Char :=
  ((s.dropWhile pyIsSpace).reverse.dropWhile pyIsSpace).reverse

/-- Python `str.lstrip()`. -/
def pyLStrip (s : List Char) : List Char := s.dropWhile pyIsSpace

/-- `pyStrip` never lengthens a string. -/
theorem pyStrip_length_le (s : List Char) : (pyStrip s).length ≤ s.length := by
  unfold pyStrip
  calc ((s.dropWhile pyIsSpace).reverse.dropWhile pyIsSpace).reverse.length
      = ((s.dropWhile pyIsSpace).reverse.dropWhile pyIsSpace).length := List.length_reverse _
    _ ≤ (s.dropWhile pyIsSpace).reverse.length := dropWhile_length_le _ _
    _ = (s.dropWhile pyIsSpace).length := List.length_reverse _
    _ ≤ s.length := dropWhile_length_le _ _

/-- Python `str.find`: index of the first occurrence of `needle`, `none`
when absent (`-1` in Python). -/
def findSub : List Char → List Char → Option Nat
  | [], needle => if needle = [] then some 0 else none
  | h :: t, needle =>
    if needle.isPrefixOf (h :: t) then some 0
    else (findSub t needle).map (· + 1)

/-- Python `str.rfind`: index of the last occurrence. -/
def rfindSub : List Char → List Char → Option Nat
  | [], needle => if needle = [] then some 0 else none
  | h :: t, needle =>
    match rfindSub t needle with
    | some i => some (i + 1)
    | none => if needle.isPrefixOf (h :: t) then some 0 else none

/-- A found occurrence fits inside the haystack. -/
theorem findSub_le {h n : List Char} {i : Nat} (hf : findSub h n = some i) :
    i + n.length ≤ h.length := by
  induction h generalizing i with
  | nil =>
    unfold findSub at hf
    split at hf
    · next he => simp_all
    · simp_all
  | cons c t ih =>
    unfold findSub at hf
    split at hf
    · next hp =>
      simp only [Option.some.injEq] at hf
      subst hf
      have := List.IsPrefix.length_le ((List.isPrefixOf_iff_prefix).mp hp)
      simpa using this
    · simp only [Option.map_eq_some'] at hf
      obtain ⟨j, hj, rfl⟩ := hf
      have := ih hj
      simp only [List.length_cons]
      omega

/-- Python regex `\w` on ASCII input: letters, digits, underscore. -/
def isWordChar (c : Char) : Bool := c.isAlpha || c.isDigit || c = '_'

/-- Case-insensitive literal match of `word` at position `i` of `text`. -/
def matchesCI (text : List Char) (i : Nat) (word : List Char) : Bool :=
  pyUpper ((text.drop i).take word.length) = pyUpper word

/-- Regex `\b` immediately before position `i`. -/
def boundaryBefore (text : List Char) (i : Nat) : Bool :=
  i = 0 || !isWordChar (text.getD (i - 1) ' ')

/-- Regex `\b` immediately after position `j` (exclusive end). -/
def boundaryAfter (text : List Char) (j : Nat) : Bool :=
  text.length ≤ j || !isWordChar (text.getD j ' ')

/-- One candidate position for the searches `\bRETURN\b` / `\bWHERE\b`
(`re.search`, case-insensitive). -/
def keywordAt (text word : List Char) (i : Nat) : Bool :=
  matchesCI text i word && boundaryBefore text i &&
    boundaryAfter text (i + word.length)

/-- `re.search` for a word-bounded keyword: the leftmost match. -/
def findKeyword (text word : List Char) : Option Nat :=
  (List.range text.length).find? (keywordAt text word)

/-- One candidate position for `\bORDER\s+BY\b`: on success, the exclusive
end of the match.  `\s` and `B` are disjoint, so the greedy `\s+` takes
the whole whitespace run. -/
def orderByAt (text : List Char) (i : Nat) : Option Nat :=
  if boundaryBefore text i && matchesCI text i ("ORDER".toList) then
    let j := i + 5
    let ws := ((text.drop j).takeWhile pyIsSpace).length
    if 1 ≤ ws && matchesCI text (j + ws) ("BY".toList) &&
        boundaryAfter text (j + ws + 2) then
      some (j + ws + 2)
    else none
  else none

/-- Scan positions left to right, returning the first hit of `f` together
with its position payload. -/
def firstHit (f : Nat → Option Nat) : List Nat → Option (Nat × Nat)
  | [] => none
  | i :: rest =>
    match f i with
    | some v => some (i, v)
    | none => firstHit f rest

/-- `ORDER_BY_REGEX.search`: leftmost match as a (start, end) pair. -/
def findOrderBy (text : List Char) : Option (Nat × Nat) :=
  firstHit (orderByAt text) (List.range text.length)

-- ===========================================================================
-- Cypher parser: pattern matchers (NODE_RE and the three edge regexes)
-- ===========================================================================

/-- One literal character. -/
def expectChar (c : Char) : List Char → Option (List Char)
  | x :: rest => if x = c then some rest else none
  | [] => none

/-- Regex `\s*`. -/
def skipWs (s : List Char) : List Char := s.dropWhile pyIsSpace

/-- Tail characters of an identifier: `[A-Za-z0-9_]`. -/
def isIdentTail (d : Char) : Bool := d.isAlpha || d.isDigit || d = '_'

/-- Regex `[A-Za-z_][A-Za-z0-9_]*`, greedy. -/
def matchIdent : List Char → Option (List Char × List Char)
  | c :: rest =>
    if c.isAlpha || c = '_' then
      some (c :: rest.takeWhile isIdentTail, rest.dropWhile isIdentTail)
    else none
  | [] => none

/-- `NODE_RE` matched at the current position:
`\(\s*var\s*:\s*label\s*\)`. -/
def matchNode (s : List Char) : Option (NodePat × List Char) := do
  let s1 ← expectChar '(' s
  let vp ← matchIdent (skipWs s1)
  let s3 ← expectChar ':' (skipWs vp.2)
  let lp ← matchIdent (skipWs s3)
  let s5 ← expectChar ')' (skipWs lp.2)
  some (⟨⟨vp.1⟩, ⟨lp.1⟩⟩, s5)

/-- The shared `\[\s*var\s*:\s*label\s*\]` core of the edge regexes. -/
def matchEdgeCore (s : List Char) : Option (String × String × List Char) := do
  let s1 ← expectChar '[' s
  let vp ← matchIdent (skipWs s1)
  let s3 ← expectChar ':' (skipWs vp.2)
  let lp ← matchIdent (skipWs s3)
  let s5 ← expectChar ']' (skipWs lp.2)
  some (⟨vp.1⟩, ⟨lp.1⟩, s5)

/-- `EDGE_FORWARD_RE`: `-[...]->`. -/
def matchEdgeForward (s : List Char) : Option (EdgePat × List Char) := do
  let s1 ← expectChar '-' s
  let core ← matchEdgeCore s1
  let s3 ← expectChar '-' core.2.2
  let s4 ← expectChar '>' s3
  some (⟨core.1, core.2.1, "->"⟩, s4)

/-- `EDGE_BACKWARD_RE`: `<-[...]-`. -/
def matchEdgeBackward (s : List Char) : Option (EdgePat × List Char) := do
  let s1 ← expectChar '<' s
  let s2 ← expectChar '-' s1
  let core ← matchEdgeCore s2
  let s4 ← expectChar '-' core.2.2
  some (⟨core.1, core.2.1, "<-"⟩, s4)

/-- `EDGE_UNDIRECT_RE`: `-[...]-`. -/
def matchEdgeUndirect (s : List Char) : Option (EdgePat × List Char) := do
  let s1 ← expectChar '-' s
  let core ← matchEdgeCore s1
  let s3 ← expectChar '-' core.2.2
  some (⟨core.1, core.2.1, "--"⟩, s3)

theorem expectChar_length {c : Char} {s r : List Char}
    (h : expectChar c s = some r) : r.length < s.length := by
  cases s with
  | nil => simp [expectChar] at h
  | cons x rest =>
    simp only [expectChar] at h
    split at h
    · simp only [Option.some.injEq] at h
      subst h
      simp
    · cases h

theorem skipWs_length_le (s : List Char) : (skipWs s).length ≤ s.length :=
  dropWhile_length_le _ _

theorem matchIdent_length {s : List Char} {p : List Char × List Char}
    (h : matchIdent s = some p) : p.2.length < s.length := by
  cases s with
  | nil => simp [matchIdent] at h
  | cons c rest =>
    simp only [matchIdent] at h
    split at h
    · simp only [Option.some.injEq] at h
      subst h
      have := dropWhile_length_le isIdentTail rest
      simp only [List.length_cons]
      omega
    · cases h

theorem matchEdgeCore_length {s : List Char} {t : String × String × List Char}
    (h : matchEdgeCore s = some t) : t.2.2.length < s.length := by
  simp only [matchEdgeCore, bind, Option.bind_eq_some, Option.some.injEq] at h
  obtain ⟨s1, h1, vp, h2, s3, h3, lp, h4, s5, h5, heq⟩ := h
  have e1 := expectChar_length h1
  have e2 := matchIdent_length h2
  have e3 := expectChar_length h3
  have e4 := matchIdent_length h4
  have e5 := expectChar_length h5
  have w1 := skipWs_length_le s1
  have w2 := skipWs_length_le vp.2
  have w3 := skipWs_length_le s3
  have w4 := skipWs_length_le lp.2
  have ht : t.2.2 = s5 := by rw [← heq]
  rw [ht]
  omega

theorem matchNode_length {s : List Char} {p : NodePat × List Char}
    (h : matchNode s = some p) : p.2.length < s.length := by
  simp only [matchNode, bind, Option.bind_eq_some, Option.some.injEq] at h
  obtain ⟨s1, h1, vp, h2, s3, h3, lp, h4, s5, h5, heq⟩ := h
  have e1 := expectChar_length h1
  have e2 := matchIdent_length h2
  have e3 := expectChar_length h3
  have e4 := matchIdent_length h4
  have e5 := expectChar_length h5
  have w1 := skipWs_length_le s1
  have w2 := skipWs_length_le vp.2
  have w3 := skipWs_length_le s3
  have w4 := skipWs_length_le lp.2
  have ht : p.2 = s5 := by rw [← heq]
  rw [ht]
  omega

theorem matchEdgeForward_length {s : List Char} {p : EdgePat × List Char}
    (h : matchEdgeForward s = some p) : p.2.length < s.length := by
  simp only [matchEdgeForward, bind, Option.bind_eq_some, Option.some.injEq] at h
  obtain ⟨s1, h1, core, h2, s3, h3, s4, h4, heq⟩ := h
  have e1 := expectChar_length h1
  have e2 := matchEdgeCore_length h2
  have e3 := expectChar_length h3
  have e4 := expectChar_length h4
  have ht : p.2 = s4 := by rw [← heq]
  rw [ht]
  omega

theorem matchEdgeBackward_length {s : List Char} {p : EdgePat × List Char}
    (h : matchEdgeBackward s = some p) : p.2.length < s.length := by
  simp only [matchEdgeBackward, bind, Option.bind_eq_some, Option.some.injEq] at h
  obtain ⟨s1, h1, s2, h2, core, h3, s4, h4, heq⟩ := h
  have e1 := expectChar_length h1
  have e2 := expectChar_length h2
  have e3 := matchEdgeCore_length h3
  have e4 := expectChar_length h4
  have ht : p.2 = s4 := by rw [← heq]
  rw [ht]
  omega

theorem matchEdgeUndirect_length {s : List Char} {p : EdgePat × List Char}
    (h : matchEdgeUndirect s = some p) : p.2.length < s.length := by
  simp only [matchEdgeUndirect, bind, Option.bind_eq_some, Option.some.injEq] at h
  obtain ⟨s1, h1, core, h2, s3, h3, heq⟩ := h
  have e1 := expectChar_length h1
  have e2 := matchEdgeCore_length h2
  have e3 := expectChar_length h3
  have ht : p.2 = s3 := by rw [← heq]
  rw [ht]
  omega

-- ===========================================================================
-- Cypher parser: _parse_pattern, _parse_expr, _parse_predicate
-- ===========================================================================

/-- The scanning loop of `_parse_pattern` (src/graphiti/cypher/
parser_fw.py, lines 87-117): skip a whitespace character, else try the
node regex, else the three edge regexes in order (forward, backward,
undirected), else `ParseError` with the current position and a 20-char
snippet.  The `fuel` argument makes the recursion structural so that the
kernel can evaluate closed calls; every successful match consumes at
least one character (the `*_length` lemmas above), so any fuel above the
text length is enough and the exhaustion branch is unreachable from the
wrapper below. -/
def patternScanF : Nat → Nat → List Char → Except PyErr (List PatItem)
  | 0, _, _ => Except.error (PyErr.parseError "fuel exhausted")
  | _ + 1, _, [] => Except.ok []
  | fuel + 1, pos, c :: rest =>
    if pyIsSpace c then patternScanF fuel (pos + 1) rest
    else
      match matchNode (c :: rest) with
      | some p =>
        (patternScanF fuel (pos + ((c :: rest).length - p.2.length)) p.2).map
          (PatItem.node p.1 :: ·)
      | none =>
        match matchEdgeForward (c :: rest) with
        | some p =>
          (patternScanF fuel (pos + ((c :: rest).length - p.2.length)) p.2).map
            (PatItem.edge p.1 :: ·)
        | none =>
          match matchEdgeBackward (c :: rest) with
          | some p =>
            (patternScanF fuel (pos + ((c :: rest).length - p.2.length)) p.2).map
              (PatItem.edge p.1 :: ·)
          | none =>
            match matchEdgeUndirect (c :: rest) with
            | some p =>
              (patternScanF fuel (pos + ((c :: rest).length - p.2.length)) p.2).map
                (PatItem.edge p.1 :: ·)
            | none =>
              Except.error (PyErr.parseError
                ("Không đọc được pattern tại vị trí " ++ toString pos ++ ": "
                  ++ String.mk ((c :: rest).take 20)))

/-- The scan entered at position 0 with sufficient fuel. -/
def patternScan (s : List Char) : Except PyErr (List PatItem) :=
  patternScanF (s.length + 1) 0 s

/-- `_parse_pattern` (lines 87-120): scan, then reject an empty item
list. -/
def parsePattern (text : List Char) : Except PyErr PathPat := do
  let items ← patternScan text
  if items = [] then Except.error (PyErr.parseError "Pattern rỗng")
  else Except.ok ⟨items⟩

/-- Python `str.isdigit` on ASCII text plus `int(...)`: the numeral
value. -/
def digitsToNat (s : List Char) : Nat :=
  s.foldl (fun a c => a * 10 + (c.toNat - 48)) 0

/-- The regex of `_parse_expr` (line 171): `([A-Z]+)\((.+)\)` via
`re.match`.  The greedy head run must be non-empty and followed by `(`;
the greedy `.+` then backtracks to the last `)` of the newline-free tail,
requiring at least one body character.  On success: function name and the
body slice. -/
def matchAggFn (text : List Char) : Option (String × List Char) :=
  if text.takeWhile Char.isUpper = [] then none
  else
    match text.drop (text.takeWhile Char.isUpper).length with
    | '(' :: rest =>
      match rfindSub (rest.takeWhile (fun c => c ≠ '\n')) [')'] with
      | some k =>
        if 1 ≤ k then some (⟨text.takeWhile Char.isUpper⟩, rest.take k)
        else none
      | none => none
    | _ => none

/-- The matched body is strictly shorter than the input. -/
theorem matchAggFn_length {text : List Char} {fn : String} {body : List Char}
    (h : matchAggFn text = some (fn, body)) : body.length < text.length := by
  unfold matchAggFn at h
  split at h
  · cases h
  · next hfn =>
    split at h
    · next rest hdrop =>
      split at h
      · next k hk =>
        split at h
        · simp only [Option.some.injEq, Prod.mk.injEq] at h
          obtain ⟨-, rfl⟩ := h
          have hlen : rest.length < text.length := by
            have htot : text.length = (text.takeWhile Char.isUpper).length +
                (text.drop (text.takeWhile Char.isUpper).length).length := by
              rw [List.length_drop]
              have := takeWhile_length_le Char.isUpper text
              omega
            rw [hdrop] at htot
            have hfn' : 0 < (text.takeWhile Char.isUpper).length := by
              cases hte : text.takeWhile Char.isUpper with
              | nil => exact absurd hte hfn
              | cons a l => simp [hte]
            simp only [List.length_cons] at htot
            omega
          have : (rest.take k).length ≤ rest.length := by
            rw [List.length_take]; omega
          omega
        · cases h
      · cases h
    · cases h

/-- `_parse_expr` (src/graphiti/cypher/parser_fw.py, lines 167-185).
Structural fuel: the aggregate body is strictly shorter than the input
(`matchAggFn_length`), so any fuel above the text length suffices and the
exhaustion branch is unreachable from the wrapper. -/
def parseExprF : Nat → List Char → Except PyErr CyExpr
  | 0, _ => Except.error (PyErr.parseError "fuel exhausted")
  | fuel + 1, t =>
    if pyStrip t = [] then Except.error (PyErr.parseError "Biểu thức rỗng")
    else
      match matchAggFn (pyStrip t) with
      | some p => do
        let inner ← parseExprF fuel (pyStrip p.2)
        Except.ok (CyExpr.agg p.1 inner)
      | none =>
        if pyStrip t = ['*'] then Except.ok (CyExpr.strLit "*")
        else if (pyStrip t).head? = some '\'' && (pyStrip t).getLast? = some '\'' then
          Except.ok (CyExpr.strLit ⟨((pyStrip t).drop 1).dropLast⟩)
        else if (pyStrip t).all Char.isDigit then
          Except.ok (CyExpr.intLit (digitsToNat (pyStrip t)))
        else if '.' ∈ pyStrip t then
          match findSub (pyStrip t) ['.'] with
          | some i =>
            Except.ok (CyExpr.prop ⟨(pyStrip t).take i⟩ ⟨(pyStrip t).drop (i + 1)⟩)
          | none =>
            Except.error (PyErr.parseError "unreachable: membership without index")
        else
          Except.error (PyErr.parseError
            ("Biểu thức '" ++ String.mk (pyStrip t)
              ++ "' chưa được hỗ trợ (cần var.prop hoặc hằng)"))

/-- `_parse_expr` entered with sufficient fuel. -/
def parseExpr (t : List Char) : Except PyErr CyExpr :=
  parseExprF (t.length + 1) t

/-- One comparison split of `_parse_predicate` (line 144-147): first
occurrence of `op` in the original-case text, one split, both sides
parsed as expressions after stripping. -/
def mkCompare (op : String) (text : List Char) (idx : Nat) :
    Except PyErr (Option CyPred) := do
  let left ← parseExpr (pyStrip (text.take idx))
  let right ← parseExpr (pyStrip (text.drop (idx + op.length)))
  Except.ok (some (CyPred.cmp left op right))

/-- `_parse_predicate` (src/graphiti/cypher/parser_fw.py, lines 123-148).
The connective loop tries `" AND "` before `" OR "` on the uppercased
text, splitting at the FIRST occurrence; then a `NOT ` head; then the
comparison operators in the order `<=`, `>=`, `<>`, `=`, `<`, `>`.  An
empty input yields `none` (Python returns `None`).  Structural fuel: every
recursive call strips at least the five (four) connective characters, so
any fuel above the text length suffices and the exhaustion branch is
unreachable from the wrapper. -/
def parsePredicateF : Nat → List Char → Except PyErr (Option CyPred)
  | 0, _ => Except.error (PyErr.parseError "fuel exhausted")
  | fuel + 1, text =>
    if text = [] then Except.ok none
    else
      match findSub (pyUpper text) (" AND ".toList) with
      | some idx => do
        let left ← parsePredicateF fuel (text.take idx)
        let right ← parsePredicateF fuel (text.drop (idx + 5))
        match left, right with
        | some l, some r => Except.ok (some (CyPred.andP l r))
        | _, _ => Except.error (PyErr.parseError "Predicate thiếu vế")
      | none =>
        match findSub (pyUpper text) (" OR ".toList) with
        | some idx => do
          let left ← parsePredicateF fuel (text.take idx)
          let right ← parsePredicateF fuel (text.drop (idx + 4))
          match left, right with
          | some l, some r => Except.ok (some (CyPred.orP l r))
          | _, _ => Except.error (PyErr.parseError "Predicate thiếu vế")
        | none =>
          if ("NOT ".toList).isPrefixOf (pyUpper text) then do
            let sub ← parsePredicateF fuel (text.drop 4)
            match sub with
            | some s => Except.ok (some (CyPred.notP s))
            | none => Except.error (PyErr.parseError "NOT thiếu toán hạng")
          else
            match findSub text ("<=".toList) with
            | some i => mkCompare "<=" text i
            | none =>
              match findSub text (">=".toList) with
              | some i => mkCompare ">=" text i
              | none =>
                match findSub text ("<>".toList) with
                | some i => mkCompare "<>" text i
                | none =>
                  match findSub text ("=".toList) with
                  | some i => mkCompare "=" text i
                  | none =>
                    match findSub text ("<".toList) with
                    | some i => mkCompare "<" text i
                    | none =>
                      match findSub text (">".toList) with
                      | some i => mkCompare ">" text i
                      | none =>
                        Except.error (PyErr.parseError "Predicate không hỗ trợ")

/-- `_parse_predicate` entered with sufficient fuel. -/
def parsePredicate (text : List Char) : Except PyErr (Option CyPred) :=
  parsePredicateF (text.length + 1) text

-- ===========================================================================
-- Cypher parser: _parse_return_list, _parse_match, parse_query
-- ===========================================================================

/-- The per-part loop of `_parse_return_list` (src/graphiti/cypher/
parser_fw.py, lines 151-164): each part must contain `" AS "`
(case-insensitively); the split is at the LAST occurrence (`rfind` on the
uppercased part); the expression is parsed from the stripped left side
and the alias is the stripped right side. -/
def returnListLoop : List (List Char) → Except PyErr (List CyExpr × List String)
  | [] => Except.ok ([], [])
  | part :: rest =>
    match rfindSub (pyUpper part) (" AS ".toList) with
    | none =>
      Except.error (PyErr.parseError "Mỗi biểu thức RETURN cần dạng 'expr AS alias'")
    | some as_idx => do
      let e ← parseExpr (pyStrip (part.take as_idx))
      let (es, ns) ← returnListLoop rest
      Except.ok (e :: es, (⟨pyStrip (part.drop (as_idx + 4))⟩ : String) :: ns)

/-- `_parse_return_list` (lines 151-164): split on every comma, strip,
drop empty parts, then run the loop. -/
def parseReturnList (text : List Char) : Except PyErr (List CyExpr × List String) :=
  returnListLoop (((text.splitOn ',').map pyStrip).filter (· ≠ []))

/-- The tail of `_parse_match` after the clause kind and pattern text are
fixed (src/graphiti/cypher/parser_fw.py, lines 70-78): the pattern is
parsed first, then the predicate — only when the WHERE text is present
and non-empty (Python's truthiness test). -/
def parseMatchCore (isOpt : Bool) (patternText : List Char)
    (whereText : Option (List Char)) : Except PyErr Clause := do
  let pattern ← parsePattern patternText
  let predicate ←
    match whereText with
    | some wt =>
      if wt = [] then (Except.ok none : Except PyErr (Option CyPred))
      else parsePredicate wt
    | none => Except.ok none
  if isOpt then Except.ok (Clause.optMatchC pattern predicate)
  else Except.ok (Clause.matchC pattern predicate)

/-- The `\bWHERE\b` split of `_parse_match` (lines 70-74). -/
def parseMatchTail (isOpt : Bool) (patternText0 : List Char) : Except PyErr Clause :=
  match findKeyword patternText0 ("WHERE".toList) with
  | some w =>
    parseMatchCore isOpt (pyStrip (patternText0.take w))
      (some (pyStrip (patternText0.drop (w + 5))))
  | none => parseMatchCore isOpt patternText0 none

/-- `_parse_match` (src/graphiti/cypher/parser_fw.py, lines 59-78):
`OPTIONAL MATCH` takes precedence over `MATCH` (prefix test on the
uppercased text). -/
def parseMatchClause (text : List Char) : Except PyErr Clause :=
  if ("OPTIONAL MATCH".toList).isPrefixOf (pyUpper text) then
    parseMatchTail true (pyLStrip (text.drop 14))
  else if ("MATCH".toList).isPrefixOf (pyUpper text) then
    parseMatchTail false (pyLStrip (text.drop 5))
  else
    Except.error (PyErr.parseError "Query phải bắt đầu bằng MATCH hoặc OPTIONAL MATCH")

/-- The `ORDER BY` tail handling of `parse_query` (lines 45-54): tokenize
the order part; a trailing `ASC`/`DESC` token fixes the direction and is
removed from the expression text; the key expression is then parsed. -/
def buildOrderBy (q : Query) (orderPart : List Char) : Except PyErr Query :=
  match (pySplitWs orderPart).getLast? with
  | none => Except.error (PyErr.indexError "list index out of range")
  | some lastTok =>
    if pyUpper lastTok = "ASC".toList ∨ pyUpper lastTok = "DESC".toList then do
      let orderExpr ← parseExpr (joinWithSpace (pySplitWs orderPart).dropLast)
      Except.ok (Query.orderQ q orderExpr (pyUpper lastTok = "ASC".toList))
    else do
      let orderExpr ← parseExpr orderPart
      Except.ok (Query.orderQ q orderExpr true)

/-- The body of `parse_query` once the (possibly cut) main text and the
saved order text are fixed (src/graphiti/cypher/parser_fw.py, lines
34-56): the mandatory `\bRETURN\b`, the MATCH part, the RETURN list, and
the optional `OrderBy` wrapper (skipped when the order text is empty,
Python's truthiness test). -/
def parseQueryCore (text : List Char) (orderPart : Option (List Char)) :
    Except PyErr Query := do
  match findKeyword text ("RETURN".toList) with
  | none => Except.error (PyErr.parseError "Thiếu RETURN")
  | some rstart => do
    let clause ← parseMatchClause (text.take rstart)
    let rl ← parseReturnList (text.drop (rstart + 6))
    match orderPart with
    | some op =>
      if op = [] then Except.ok (Query.returnQ clause rl.1 rl.2)
      else buildOrderBy (Query.returnQ clause rl.1 rl.2) op
    | none => Except.ok (Query.returnQ clause rl.1 rl.2)

/-- `parse_query` (src/graphiti/cypher/parser_fw.py, lines 21-56): strip;
reject the empty string; cut the `\bORDER\s+BY\b` tail; then the core. -/
def parse_query (s : List Char) : Except PyErr Query :=
  if pyStrip s = [] then Except.error (PyErr.parseError "Chuỗi query rỗng")
  else
    match findOrderBy (pyStrip s) with
    | some (st, en) =>
      parseQueryCore (pyStrip ((pyStrip s).take st))
        (some (pyStrip ((pyStrip s).drop en)))
    | none => parseQueryCore (pyStrip s) none

-- ===========================================================================
-- Theorems: backend verifier and worker (claims about verifier.py and
-- cli_verieql.py)
-- ===========================================================================

/-- C10: the normalization backend verifier reports `EQUIVALENT` exactly
when the two SQL texts agree after lowercasing and whitespace collapsing,
and `NOT_EQUIVALENT` otherwise; it never reports `TIMEOUT` or `UNKNOWN`,
always reports `checked_bound = 20`, and ignores its timeout argument. -/
theorem verieql_backend_normalize_characterization (sql1 sql2 : List Char) (t : Nat) :
    ((verifyWithVerieql sql1 sql2 t).result = VerificationResult.EQUIVALENT ↔
      sqlNormalize sql1 = sqlNormalize sql2) ∧
    ((verifyWithVerieql sql1 sql2 t).result = VerificationResult.NOT_EQUIVALENT ↔
      ¬ sqlNormalize sql1 = sqlNormalize sql2) ∧
    (verifyWithVerieql sql1 sql2 t).result ≠ VerificationResult.TIMEOUT ∧
    (verifyWithVerieql sql1 sql2 t).result ≠ VerificationResult.UNKNOWN ∧
    (verifyWithVerieql sql1 sql2 t).checked_bound = some 20 ∧
    verifyWithVerieql sql1 sql2 t = verifyWithVerieql sql1 sql2 0 := by
  unfold verifyWithVerieql
  by_cases h : sqlNormalize sql1 = sqlNormalize sql2 <;> simp [h]

/-- C1: when the two encoded output relations have different column
counts (and neither is the deleted tuple), `Environment.analyze` returns
`-1` without consulting the solver — but the worker's classification
`if result == False ... else EQUIV` sends `-1` to `STATE.EQUIV`, not
`STATE.NON_EQUIV`, because `-1 == False` is false in Python. -/
theorem column_mismatch_classified_equiv :
    (∀ s : AnalyzeResult,
      analyzeOutcome s (⟨"SCOPE1".toList, [0, 1]⟩ : OutTuple Nat)
        ⟨"SCOPE2".toList, [0]⟩ = AnalyzeResult.negOne) ∧
    classifyAnalyzeResult AnalyzeResult.negOne = STATE.EQUIV ∧
    STATE.EQUIV ≠ STATE.NON_EQUIV := by
  refine ⟨fun s => ?_, rfl, by decide⟩
  have hcond : compareColumnMismatch (⟨"SCOPE1".toList, [0, 1]⟩ : OutTuple Nat)
      ⟨"SCOPE2".toList, [0]⟩ = true := by decide
  unfold analyzeOutcome
  rw [hcond]
  simp

/-- The full trace of the bounded-search ladder from an arbitrary resume
state: some number `n ≤ fuel` of runs completed with `EQUIV` at
consecutive bounds, then either the budget ran out (a final `TIMEOUT`
entry) or the next run returned a non-`EQUIV` verdict and the ladder
stopped there. -/
theorem ladder_trace (outcome : Nat → STATE) (fuel : Nat) (states : List STATE) :
    ∃ n ≤ fuel,
      (∀ i, i < n → outcome (states.length + i) = STATE.EQUIV) ∧
      ladder outcome fuel states =
        states ++ (List.range n).map (fun i => outcome (states.length + i)) ++
          (if n = fuel then [STATE.TIMEOUT] else [outcome (states.length + n)]) ∧
      (n < fuel → outcome (states.length + n) ≠ STATE.EQUIV) := by
  induction fuel generalizing states with
  | zero =>
    refine ⟨0, Nat.le_refl 0, by omega, ?_, by omega⟩
    simp [ladder]
  | succ fuel ih =>
    by_cases h : outcome states.length = STATE.EQUIV
    · obtain ⟨n, hn, hall, heq, hlast⟩ := ih (states ++ [outcome states.length])
      simp only [List.length_append, List.length_cons, List.length_nil] at hall heq hlast
      refine ⟨n + 1, by omega, ?_, ?_, ?_⟩
      · intro i hi
        cases i with
        | zero => simpa using h
        | succ j =>
          have hj := hall j (by omega)
          have harith : states.length + 1 + j = states.length + (j + 1) := by omega
          rw [harith] at hj
          exact hj
      · have hstep : ladder outcome (fuel + 1) states =
            ladder outcome fuel (states ++ [outcome states.length]) := by
          rw [ladder]
          simp [h]
        rw [hstep, heq]
        have hmap : (List.range (n + 1)).map (fun i => outcome (states.length + i)) =
            outcome (states.length + 0) ::
              (List.range n).map (fun i => outcome (states.length + 1 + i)) := by
          rw [List.range_succ_eq_map, List.map_cons, List.map_map]
          congr 1
          apply List.map_congr_left
          intro a _
          simp only [Function.comp_apply]
          congr 1
          omega
        rw [hmap]
        have htail : (if n + 1 = fuel + 1 then [STATE.TIMEOUT]
            else [outcome (states.length + (n + 1))]) =
            (if n = fuel then [STATE.TIMEOUT]
            else [outcome (states.length + 1 + n)]) := by
          by_cases hnf : n = fuel
          · simp [hnf]
          · have : ¬ (n + 1 = fuel + 1) := by omega
            have harith : states.length + (n + 1) = states.length + 1 + n := by omega
            simp [hnf, this, harith]
        rw [htail]
        simp [h]
      · intro hcnt
        have := hlast (by omega)
        have harith : states.length + 1 + n = states.length + (n + 1) := by omega
        rw [harith] at this
        exact this
    · refine ⟨0, by omega, by omega, ?_, fun _ => by simpa using h⟩
      rw [ladder]
      simp [h]

/-- C8: starting from an empty resume list, the ladder runs bounds
1, 2, 3, … in order; the run at the next bound is started only when the
previous one ended `EQUIV`; the first non-`EQUIV` outcome ends the ladder
immediately, and exhausting the budget appends `TIMEOUT`. -/
theorem bounded_ladder_retries_only_after_equiv (outcome : Nat → STATE) (fuel : Nat) :
    ∃ n ≤ fuel,
      (∀ i, i < n → outcome i = STATE.EQUIV) ∧
      ladder outcome fuel [] =
        (List.range n).map outcome ++
          (if n = fuel then [STATE.TIMEOUT] else [outcome n]) ∧
      (n < fuel → outcome n ≠ STATE.EQUIV) := by
  have h := ladder_trace outcome fuel []
  simpa using h

/-- A concrete outcome sequence for exercising the ladder: `EQUIV` at
bounds 1 and 2, `NON_EQUIV` at bound 3. -/
def demoOutcome : Nat → STATE := fun i => if i < 2 then STATE.EQUIV else STATE.NON_EQUIV

/-- Witness for C8 at a concrete oracle and budget. -/
theorem bounded_ladder_retries_witness :
    ∃ n ≤ 5, (∀ i, i < n → demoOutcome i = STATE.EQUIV) ∧
      ladder demoOutcome 5 [] = (List.range n).map demoOutcome ++
        (if n = 5 then [STATE.TIMEOUT] else [demoOutcome n]) ∧
      (n < 5 → demoOutcome n ≠ STATE.EQUIV) :=
  bounded_ladder_retries_only_after_equiv demoOutcome 5

-- ===========================================================================
-- Observation functions and spec-side predicates
-- ===========================================================================

/-- All join nodes of an IR tree with their ON-conditions and kinds, in
left-to-right construction order. -/
def joinsOf : SQL → List (SQLPred × String)
  | SQL.fromTable _ _ => []
  | SQL.join l r onPred k => joinsOf l ++ joinsOf r ++ [(onPred, k)]
  | SQL.project sub _ => joinsOf sub
  | SQL.groupBy sub _ _ _ => joinsOf sub
  | SQL.select sub _ => joinsOf sub
  | SQL.withCTE _ sub body => joinsOf sub ++ joinsOf body
  | SQL.unionIR l r _ => joinsOf l ++ joinsOf r
  | SQL.orderByIR sub _ _ => joinsOf sub

/-- The spec's path-pattern invariant (data model §3): begins with a node
pattern and strictly alternates node and edge patterns, hence also ends
with a node pattern; written as node (edge node)*. -/
def altSegs : List PatItem → Bool
  | [] => true
  | PatItem.edge _ :: PatItem.node _ :: rest => altSegs rest
  | _ => false

/-- A path pattern that begins with a node and alternates strictly. -/
def beginsAndAlternates : List PatItem → Bool
  | PatItem.node _ :: rest => altSegs rest
  | _ => false

/-- Does a predicate-parse result have an OR node at the root? -/
def isOrRooted : Except PyErr (Option CyPred) → Bool
  | Except.ok (some (CyPred.orP _ _)) => true
  | _ => false

/-- Every `PathPat` reachable in a clause (following `ClauseWith.prev`). -/
def patternsOfClause : Clause → List PathPat
  | Clause.matchC p _ => [p]
  | Clause.optMatchC p _ => [p]
  | Clause.withC prev _ _ => patternsOfClause prev

/-- Every `PathPat` reachable in a query. -/
def patternsOf : Query → List PathPat
  | Query.returnQ c _ _ => patternsOfClause c
  | Query.orderQ sub _ _ => patternsOf sub
  | Query.unionQ l r _ => patternsOf l ++ patternsOf r

-- ===========================================================================
-- A concrete graph schema shared by the concrete evaluations (the schema
-- of src/tests/test_graphiti.py)
-- ===========================================================================

/-- The test suite's schema: Person(pid, name), Company(cid, title),
WORKS_AT(wid) from Person to Company. -/
def demoGraph : GraphSchema :=
  { nodes := [⟨"Person", ["pid", "name"]⟩, ⟨"Company", ["cid", "title"]⟩],
    edges := [⟨"WORKS_AT", "Person", "Company", ["wid"]⟩] }

/-- The IR produced for the OPTIONAL MATCH query below. -/
def demoOptSql : SQL :=
  SQL.project
    (SQL.join
      (SQL.join (SQL.fromTable "person" "p") (SQL.fromTable "works_at" "w")
        (SQLPred.cmp "=" (SQLExpr.column "p" "pid") (SQLExpr.column "w" "SRC")) "inner")
      (SQL.fromTable "company" "c")
      (SQLPred.cmp "=" (SQLExpr.column "w" "TGT") (SQLExpr.column "c" "cid")) "inner")
    [("pid", SQLExpr.column "p" "pid")]

-- ===========================================================================
-- Theorems: transpiler claims
-- ===========================================================================

/-- C2: transpiling `OPTIONAL MATCH (p:Person)-[w:WORKS_AT]->(c:Company)
RETURN p.pid AS pid` over the induced schema emits the two joins in order
with the §4.4 conditions — but BOTH with kind `inner`, not `left`:
`isinstance(clause, ClauseMatch)` also matches the `ClauseOptMatch`
subclass, so the dedicated OPTIONAL MATCH branch (`outer=True`) is
unreachable and the claimed `left` kind is never produced. -/
theorem optional_match_transpiles_to_inner_joins :
    (do
      let inf ← infer_sdt demoGraph
      let q ← parse_query
        ("OPTIONAL MATCH (p:Person)-[w:WORKS_AT]->(c:Company) RETURN p.pid AS pid".toList)
      transpile_query inf.sdt inf.schema q) = Except.ok demoOptSql ∧
    (joinsOf demoOptSql).map Prod.snd = ["inner", "inner"] ∧
    ¬ (joinsOf demoOptSql).map Prod.snd = ["left", "left"] := by
  refine ⟨by rfl, by rfl, by decide⟩

/-- C6 counterexample: the accepted WHERE text
`a.x = 1 AND b.y = 2 OR c.z = 3` contains both connectives at top level,
yet the parser returns an AND node at the root (the connective loop
splits at `" AND "` first), not the OR node the claim requires. -/
theorem predicate_and_or_root_counterexample :
    parsePredicate ("a.x = 1 AND b.y = 2 OR c.z = 3".toList) =
      Except.ok (some (CyPred.andP
        (CyPred.cmp (CyExpr.prop "a" "x") "=" (CyExpr.intLit 1))
        (CyPred.orP (CyPred.cmp (CyExpr.prop "b" "y") "=" (CyExpr.intLit 2))
          (CyPred.cmp (CyExpr.prop "c" "z") "=" (CyExpr.intLit 3))))) ∧
    isOrRooted (parsePredicate ("a.x = 1 AND b.y = 2 OR c.z = 3".toList)) = false := by
  refine ⟨by rfl, by rfl⟩

/-- C7 counterexample: the WHERE predicate references the variable `x`,
which no pattern binds, yet the transpiler succeeds — `vars_available` is
discarded by `transpile_query` and no binding check exists (there is no
`BindingError` anywhere in the code). -/
theorem unbound_variable_not_rejected :
    (do
      let inf ← infer_sdt demoGraph
      let q ← parse_query
        ("MATCH (n:Person) WHERE x.age > 25 RETURN n.name AS name".toList)
      transpile_query inf.sdt inf.schema q) =
      Except.ok (SQL.project
        (SQL.select (SQL.fromTable "person" "n")
          (SQLPred.cmp ">" (SQLExpr.column "x" "age") (SQLExpr.number 25)))
        [("name", SQLExpr.column "n" "name")]) := by rfl

/-- C9 counterexample: `MATCH (a:A)(b:B) RETURN a.x AS x` is accepted by
`parse_query`, and the returned path pattern is two adjacent node
patterns — it does not alternate node and edge patterns. -/
theorem parser_accepts_non_alternating_pattern :
    parse_query ("MATCH (a:A)(b:B) RETURN a.x AS x".toList) =
      Except.ok (Query.returnQ
        (Clause.matchC
          ⟨[PatItem.node ⟨"a", "A"⟩, PatItem.node ⟨"b", "B"⟩]⟩ none)
        [CyExpr.prop "a" "x"] ["x"]) ∧
    beginsAndAlternates [PatItem.node ⟨"a", "A"⟩, PatItem.node ⟨"b", "B"⟩] = false := by
  refine ⟨by rfl, by rfl⟩

/-- Bind on a successful `Except` computation. -/
theorem except_bind_ok {ε α β : Type} (a : α) (f : α → Except ε β) :
    (Except.ok a >>= f) = f a := rfl

/-- Bind on a failed `Except` computation. -/
theorem except_bind_error {ε α β : Type} (e : ε) (f : α → Except ε β) :
    ((Except.error e : Except ε α) >>= f) = Except.error e := rfl

/-- C6 amended: the connective precedence implemented by
`_parse_predicate` is AND < OR (the loop tries `" AND "` first and splits
there): whenever the uppercased text contains `" AND "` and the parse
succeeds with a predicate, the root of that predicate is an AND node. -/
theorem parse_predicate_and_precedence (text : List Char) (p : CyPred)
    (hfind : (findSub (pyUpper text) (" AND ".toList)).isSome)
    (hok : parsePredicate text = Except.ok (some p)) :
    ∃ l r, p = CyPred.andP l r := by
  obtain ⟨idx, hidx⟩ := Option.isSome_iff_exists.mp hfind
  by_cases h0 : text = []
  · rw [h0] at hidx
    simp [pyUpper, findSub] at hidx
  · unfold parsePredicate at hok
    rw [parsePredicateF] at hok
    rw [if_neg h0, hidx] at hok
    dsimp only at hok
    cases hl : parsePredicateF text.length (text.take idx) with
    | error e =>
      rw [hl, except_bind_error] at hok
      cases hok
    | ok left =>
      rw [hl, except_bind_ok] at hok
      cases hr : parsePredicateF text.length (text.drop (idx + 5)) with
      | error e =>
        rw [hr, except_bind_error] at hok
        cases hok
      | ok right =>
        rw [hr, except_bind_ok] at hok
        cases left with
        | none =>
          cases right <;> simp_all
        | some l =>
          cases right with
          | none => simp_all
          | some r =>
            refine ⟨l, r, ?_⟩
            simpa using hok.symm

/-- Witness for C6's amended theorem at the counterexample text. -/
theorem parse_predicate_and_precedence_witness :
    ∃ l r, CyPred.andP
        (CyPred.cmp (CyExpr.prop "a" "x") "=" (CyExpr.intLit 1))
        (CyPred.orP (CyPred.cmp (CyExpr.prop "b" "y") "=" (CyExpr.intLit 2))
          (CyPred.cmp (CyExpr.prop "c" "z") "=" (CyExpr.intLit 3))) =
      CyPred.andP l r :=
  parse_predicate_and_precedence ("a.x = 1 AND b.y = 2 OR c.z = 3".toList) _
    (by rfl) (by rfl)

/-- A pattern accepted by `_parse_pattern` is never empty (the explicit
`Pattern rỗng` check). -/
theorem parsePattern_nonempty {text : List Char} {pp : PathPat}
    (h : parsePattern text = Except.ok pp) : pp.items ≠ [] := by
  unfold parsePattern at h
  cases hs : patternScan text with
  | error e => rw [hs, except_bind_error] at h; cases h
  | ok items =>
    rw [hs, except_bind_ok] at h
    split at h
    · cases h
    · next hne =>
      simp only [Except.ok.injEq] at h
      subst h
      simpa using hne

/-- The clause built by `parseMatchCore` carries exactly the parsed
pattern, which is non-empty. -/
theorem parseMatchCore_patterns {isOpt : Bool} {patternText : List Char}
    {whereText : Option (List Char)} {c : Clause}
    (h : parseMatchCore isOpt patternText whereText = Except.ok c) :
    ∀ pp ∈ patternsOfClause c, pp.items ≠ [] := by
  unfold parseMatchCore at h
  cases hp : parsePattern patternText with
  | error e => rw [hp, except_bind_error] at h; cases h
  | ok pattern =>
    rw [hp, except_bind_ok] at h
    have hne := parsePattern_nonempty hp
    cases whereText with
    | none =>
      dsimp only at h
      rw [except_bind_ok] at h
      split at h <;>
        · simp only [Except.ok.injEq] at h
          subst h
          intro pp hpp
          simp only [patternsOfClause, List.mem_singleton] at hpp
          subst hpp
          exact hne
    | some wt =>
      dsimp only at h
      split at h
      · rw [except_bind_ok] at h
        split at h <;>
          · simp only [Except.ok.injEq] at h
            subst h
            intro pp hpp
            simp only [patternsOfClause, List.mem_singleton] at hpp
            subst hpp
            exact hne
      · cases hw : parsePredicate wt with
        | error e => rw [hw, except_bind_error] at h; cases h
        | ok predicate =>
          rw [hw, except_bind_ok] at h
          split at h <;>
            · simp only [Except.ok.injEq] at h
              subst h
              intro pp hpp
              simp only [patternsOfClause, List.mem_singleton] at hpp
              subst hpp
              exact hne

/-- Patterns of a clause produced by `parseMatchTail` are non-empty. -/
theorem parseMatchTail_patterns {isOpt : Bool} {t : List Char} {c : Clause}
    (h : parseMatchTail isOpt t = Except.ok c) :
    ∀ pp ∈ patternsOfClause c, pp.items ≠ [] := by
  unfold parseMatchTail at h
  split at h
  · exact parseMatchCore_patterns h
  · exact parseMatchCore_patterns h

/-- Patterns of a clause produced by `_parse_match` are non-empty. -/
theorem parseMatchClause_patterns {t : List Char} {c : Clause}
    (h : parseMatchClause t = Except.ok c) :
    ∀ pp ∈ patternsOfClause c, pp.items ≠ [] := by
  unfold parseMatchClause at h
  split at h
  · exact parseMatchTail_patterns h
  · split at h
    · exact parseMatchTail_patterns h
    · cases h

/-- `buildOrderBy` only wraps the query, leaving its patterns unchanged. -/
theorem buildOrderBy_patterns {q q' : Query} {op : List Char}
    (h : buildOrderBy q op = Except.ok q') : patternsOf q' = patternsOf q := by
  unfold buildOrderBy at h
  split at h
  · cases h
  · split at h
    · cases he : parseExpr (joinWithSpace (pySplitWs op).dropLast) with
      | error e => rw [he, except_bind_error] at h; cases h
      | ok oe =>
        rw [he, except_bind_ok] at h
        simp only [Except.ok.injEq] at h
        subst h
        simp [patternsOf]
    · cases he : parseExpr op with
      | error e => rw [he, except_bind_error] at h; cases h
      | ok oe =>
        rw [he, except_bind_ok] at h
        simp only [Except.ok.injEq] at h
        subst h
        simp [patternsOf]

/-- Patterns of a query produced by `parseQueryCore` are non-empty. -/
theorem parseQueryCore_patterns {text : List Char} {orderPart : Option (List Char)}
    {q : Query} (h : parseQueryCore text orderPart = Except.ok q) :
    ∀ pp ∈ patternsOf q, pp.items ≠ [] := by
  unfold parseQueryCore at h
  split at h
  · cases h
  · next rstart _ =>
    cases hc : parseMatchClause (text.take rstart) with
    | error e => rw [hc, except_bind_error] at h; cases h
    | ok clause =>
      rw [hc, except_bind_ok] at h
      have hcl := parseMatchClause_patterns hc
      cases hrl : parseReturnList (text.drop (rstart + 6)) with
      | error e => rw [hrl, except_bind_error] at h; cases h
      | ok rl =>
        rw [hrl, except_bind_ok] at h
        split at h
        · split at h
          · simp only [Except.ok.injEq] at h
            subst h
            simpa [patternsOf] using hcl
          · have := buildOrderBy_patterns h
            rw [this]
            simpa [patternsOf] using hcl
        · simp only [Except.ok.injEq] at h
          subst h
          simpa [patternsOf] using hcl

/-- C9 amended: every path pattern in an AST accepted by `parse_query` is
non-empty; the parser checks nothing further about its shape (it does not
enforce a node start or strict alternation, as the counterexample
shows). -/
theorem parse_query_patterns_nonempty (s : List Char) (q : Query)
    (h : parse_query s = Except.ok q) :
    ∀ pp ∈ patternsOf q, pp.items ≠ [] := by
  unfold parse_query at h
  split at h
  · cases h
  · split at h
    · exact parseQueryCore_patterns h
    · exact parseQueryCore_patterns h

/-- Witness for C9's amended theorem at the counterexample input. -/
theorem parse_query_patterns_nonempty_witness :
    (PathPat.mk [PatItem.node ⟨"a", "A"⟩, PatItem.node ⟨"b", "B"⟩]).items ≠ [] :=
  parse_query_patterns_nonempty ("MATCH (a:A)(b:B) RETURN a.x AS x".toList)
    (Query.returnQ
      (Clause.matchC ⟨[PatItem.node ⟨"a", "A"⟩, PatItem.node ⟨"b", "B"⟩]⟩ none)
      [CyExpr.prop "a" "x"] ["x"])
    (by rfl) _ (by simp [patternsOf, patternsOfClause])

/-- C7 amended: an unresolved node label makes the transpiler fail with
a `KeyError` naming the `NodeType`; an unresolved edge label (in any
pattern long enough to reach it) fails with a `KeyError` naming the
`EdgeType`; and variable references are never checked against the
pattern's bindings — the concrete query whose WHERE mentions the unbound
`x` transpiles successfully.  No `BindingError` (or `SchemaMismatchError`)
class exists in the code. -/
theorem transpile_label_and_binding_behavior :
    (∀ (rs : RelationalSchema) (np : NodePat) (rest : List PatItem) (outer : Bool),
      List.lookup (strLower np.label) rs.tables = none →
      transpile_pattern ⟨PatItem.node np :: rest⟩ rs outer =
        Except.error (PyErr.keyError ("Không tìm thấy bảng cho NodeType " ++ np.label))) ∧
    (∀ (rs : RelationalSchema) (np : NodePat) (t : Table) (x y : PatItem)
      (rest : List PatItem) (outer : Bool),
      List.lookup (strLower np.label) rs.tables = some t →
      List.lookup (strLower x.label) rs.tables = none →
      transpile_pattern ⟨PatItem.node np :: x :: y :: rest⟩ rs outer =
        Except.error (PyErr.keyError ("Không tìm thấy bảng cho EdgeType " ++ x.label))) ∧
    (do
      let inf ← infer_sdt demoGraph
      let q ← parse_query
        ("MATCH (n:Person) WHERE x.age > 25 RETURN n.name AS name".toList)
      transpile_query inf.sdt inf.schema q) =
      Except.ok (SQL.project
        (SQL.select (SQL.fromTable "person" "n")
          (SQLPred.cmp ">" (SQLExpr.column "x" "age") (SQLExpr.number 25)))
        [("name", SQLExpr.column "n" "name")]) := by
  refine ⟨?_, ?_, by rfl⟩
  · intro rs np rest outer hlook
    have hres : resolveNodeTable np.label rs =
        Except.error (PyErr.keyError ("Không tìm thấy bảng cho NodeType " ++ np.label)) := by
      unfold resolveNodeTable RelationalSchema.get_table
      rw [hlook]
    unfold transpile_pattern
    dsimp only
    rw [hres, except_bind_error]
  · intro rs np t x y rest outer hnp hx
    have hres : resolveNodeTable np.label rs = Except.ok t := by
      unfold resolveNodeTable RelationalSchema.get_table
      rw [hnp]
    have hedge : resolveEdgeTable x.label rs =
        Except.error (PyErr.keyError ("Không tìm thấy bảng cho EdgeType " ++ x.label)) := by
      unfold resolveEdgeTable RelationalSchema.get_table
      rw [hx]
    unfold transpile_pattern
    dsimp only
    rw [hres, except_bind_ok]
    unfold patternLoop
    rw [hedge, except_bind_error]

/-- The length of a successful `Except`-valued `mapM`. -/
theorem mapM_ok_length {α β : Type} (f : α → Except PyErr β) :
    ∀ (l : List α) (ys : List β), l.mapM f = Except.ok ys → ys.length = l.length := by
  intro l
  induction l with
  | nil =>
    intro ys h
    simp only [List.mapM_nil, pure, Except.pure] at h
    cases h
    rfl
  | cons x xs ih =>
    intro ys h
    rw [List.mapM_cons] at h
    cases hf : f x with
    | error e => rw [hf, except_bind_error] at h; cases h
    | ok y =>
      rw [hf, except_bind_ok] at h
      cases hxs : xs.mapM f with
      | error e => rw [hxs, except_bind_error] at h; cases h
      | ok ys0 =>
        rw [hxs, except_bind_ok] at h
        simp only [pure, Except.pure, Except.ok.injEq] at h
        subst h
        simp [ih ys0 hxs]

/-- Each element of a successfully mapped list was itself mapped
successfully. -/
theorem mapM_ok_forall {α β : Type} (f : α → Except PyErr β) :
    ∀ (l : List α) (ys : List β), l.mapM f = Except.ok ys →
      ∀ x ∈ l, ∃ y, f x = Except.ok y := by
  intro l
  induction l with
  | nil => intro ys _ x hx; cases hx
  | cons z xs ih =>
    intro ys h x hx
    rw [List.mapM_cons] at h
    cases hf : f z with
    | error e => rw [hf, except_bind_error] at h; cases h
    | ok y =>
      rw [hf, except_bind_ok] at h
      cases hxs : xs.mapM f with
      | error e => rw [hxs, except_bind_error] at h; cases h
      | ok ys0 =>
        cases hx with
        | head => exact ⟨y, hf⟩
        | tail _ hmem => exact ih ys0 hxs x hmem

/-- A list all of whose elements map successfully maps successfully. -/
theorem mapM_ok_of_forall {α β : Type} (f : α → Except PyErr β) :
    ∀ (l : List α), (∀ x ∈ l, ∃ y, f x = Except.ok y) →
      ∃ ys, l.mapM f = Except.ok ys := by
  intro l
  induction l with
  | nil => intro _; exact ⟨[], rfl⟩
  | cons z xs ih =>
    intro hall
    obtain ⟨y, hy⟩ := hall z (List.mem_cons_self z xs)
    obtain ⟨ys, hys⟩ := ih fun x hx => hall x (List.mem_cons_of_mem z hx)
    refine ⟨y :: ys, ?_⟩
    rw [List.mapM_cons, hy, except_bind_ok, hys, except_bind_ok]
    rfl

/-- The seen-set fold keeps the first occurrence of each key and nothing
else: the result is duplicate-free and has the same members. -/
theorem dedupKeys_fold (keys : List SQLExpr) :
    ∀ acc : List SQLExpr, acc.Nodup →
      (keys.foldl (fun acc k => if k ∈ acc then acc else acc ++ [k]) acc).Nodup ∧
      (∀ k, k ∈ keys.foldl (fun acc k => if k ∈ acc then acc else acc ++ [k]) acc ↔
        k ∈ acc ∨ k ∈ keys) := by
  induction keys with
  | nil => intro acc hacc; simpa using hacc
  | cons x xs ih =>
    intro acc hacc
    simp only [List.foldl_cons]
    by_cases hx : x ∈ acc
    · rw [if_pos hx]
      obtain ⟨hn, hm⟩ := ih acc hacc
      refine ⟨hn, fun k => ?_⟩
      rw [hm k]
      constructor
      · rintro (h | h)
        · exact Or.inl h
        · exact Or.inr (List.mem_cons_of_mem x h)
      · rintro (h | h)
        · exact Or.inl h
        · rcases List.mem_cons.mp h with rfl | h
          · exact Or.inl hx
          · exact Or.inr h
    · rw [if_neg hx]
      have hacc' : (acc ++ [x]).Nodup := by
        rw [List.nodup_append]
        exact ⟨hacc, List.nodup_singleton x, by simpa using hx⟩
      obtain ⟨hn, hm⟩ := ih (acc ++ [x]) hacc'
      refine ⟨hn, fun k => ?_⟩
      rw [hm k]
      simp only [List.mem_append, List.mem_singleton, List.mem_cons]
      tauto

/-- `dedupKeys` is deduplication by structural equality: duplicate-free,
same members, first occurrences kept. -/
theorem dedupKeys_spec (keys : List SQLExpr) :
    (dedupKeys keys).Nodup ∧ (∀ k, k ∈ dedupKeys keys ↔ k ∈ keys) := by
  obtain ⟨hn, hm⟩ := dedupKeys_fold keys [] List.nodup_nil
  exact ⟨hn, fun k => by simpa using hm k⟩

/-- C5: for a `ReturnQuery` whose clause and expressions translate, the
projection items are the RETURN names zipped with the translated
expressions — as many items as RETURN expressions, aliases equal to the
names, in order; with no aggregate the result is that `Project`, and with
an aggregate it is a `GroupBy` over the same items whose keys are the
translated non-aggregate RETURN expressions deduplicated by structural
equality. -/
theorem transpile_return_projection
    (sdt : SDT) (rs : RelationalSchema) (clause : Clause)
    (exprs : List CyExpr) (names : List String)
    (vars : List String) (base : SQL) (sqlExprs : List SQLExpr)
    (hclause : transpile_clause sdt rs clause = Except.ok (vars, base))
    (hexprs : exprs.mapM to_sql_expr = Except.ok sqlExprs)
    (hlen : names.length = exprs.length) :
    ((names.zip sqlExprs).map Prod.fst = names ∧
     (names.zip sqlExprs).length = exprs.length) ∧
    (exprs.any is_agg_expr = false →
      transpile_query sdt rs (Query.returnQ clause exprs names) =
        Except.ok (SQL.project base (names.zip sqlExprs))) ∧
    (exprs.any is_agg_expr = true →
      ∃ ks, (exprs.filter (fun e => !is_agg_expr e)).mapM to_sql_expr = Except.ok ks ∧
        transpile_query sdt rs (Query.returnQ clause exprs names) =
          Except.ok (SQL.groupBy base (dedupKeys ks) (names.zip sqlExprs) none) ∧
        (dedupKeys ks).Nodup ∧ (∀ k, k ∈ dedupKeys ks ↔ k ∈ ks)) := by
  have hslen : sqlExprs.length = exprs.length := mapM_ok_length to_sql_expr exprs sqlExprs hexprs
  have hfst : (names.zip sqlExprs).map Prod.fst = names :=
    List.map_fst_zip names sqlExprs (by omega)
  have hziplen : (names.zip sqlExprs).length = exprs.length := by
    rw [List.length_zip]
    omega
  refine ⟨⟨hfst, hziplen⟩, ?_, ?_⟩
  · intro hnoagg
    unfold transpile_query
    rw [hclause, except_bind_ok]
    dsimp only
    rw [hexprs, except_bind_ok]
    rw [hnoagg]
    simp
  · intro hagg
    obtain ⟨ks, hks⟩ := mapM_ok_of_forall to_sql_expr
      (exprs.filter (fun e => !is_agg_expr e))
      (fun x hx => mapM_ok_forall to_sql_expr exprs sqlExprs hexprs x
        (List.mem_of_mem_filter hx))
    obtain ⟨hnodup, hmem⟩ := dedupKeys_spec ks
    refine ⟨ks, hks, ?_, hnodup, hmem⟩
    unfold transpile_query
    rw [hclause, except_bind_ok]
    dsimp only
    rw [hexprs, except_bind_ok]
    rw [hagg]
    simp only [if_true]
    rw [hks, except_bind_ok]

-- ===========================================================================
-- Theorems: InferSDT (C3)
-- ===========================================================================

/-- The table a `NodeType` induces. -/
def nodeTableOf (n : NodeType) : Table :=
  { name := strLower n.label, attrs := n.keys, pk := n.default_key }

/-- The SDT rule a `NodeType` induces. -/
def nodeRuleOf (n : NodeType) : SDTRule :=
  { left_pred := (n.label, n.keys), right_pred := (strLower n.label, n.keys) }

/-- The SDT rule an `EdgeType` induces. -/
def edgeRuleOf (e : EdgeType) : SDTRule :=
  { left_pred := (e.label, e.keys ++ ["SRC", "TGT"]),
    right_pred := (strLower e.label, e.keys ++ ["SRC", "TGT"]) }

/-- Association-list lookup with a junk default (used only where the
lookup is known to succeed). -/
def lookupTableD (ts : List (String × Table)) (key : String) : Table :=
  (List.lookup key ts).getD { name := "", attrs := [], pk := "" }

/-- The node tables in insertion order, keyed by lowercased label. -/
def nodeTablesOf (ns : List NodeType) : List (String × Table) :=
  ns.map (fun n => (strLower n.label, nodeTableOf n))

/-- The table an `EdgeType` induces, resolving its endpoints in the node
tables `nt`. -/
def edgeTableOfNT (nt : List (String × Table)) (e : EdgeType) : Table :=
  { name := strLower e.label, attrs := e.keys ++ ["SRC", "TGT"], pk := e.default_key,
    fks := [("SRC", (lookupTableD nt (strLower e.src_label)).name,
              (lookupTableD nt (strLower e.src_label)).pk),
            ("TGT", (lookupTableD nt (strLower e.tgt_label)).name,
              (lookupTableD nt (strLower e.tgt_label)).pk)] }

/-- A key found on the left of an append is found in the whole list. -/
theorem lookup_append_some {β : Type} {l1 l2 : List (String × β)} {a : String} {v : β}
    (h : List.lookup a l1 = some v) : List.lookup a (l1 ++ l2) = some v := by
  induction l1 with
  | nil => simp [List.lookup] at h
  | cons p rest ih =>
    rw [List.cons_append, List.lookup]
    rw [List.lookup] at h
    split at h
    · simpa using h
    · exact ih h

/-- A key absent on the left of an append is looked up on the right. -/
theorem lookup_append_none {β : Type} {l1 l2 : List (String × β)} {a : String}
    (h : List.lookup a l1 = none) : List.lookup a (l1 ++ l2) = List.lookup a l2 := by
  induction l1 with
  | nil => simp
  | cons p rest ih =>
    rw [List.cons_append, List.lookup]
    rw [List.lookup] at h
    split at h
    · cases h
    · exact ih h

/-- A key that is no entry's first component is not found. -/
theorem lookup_eq_none_of_not_mem {β : Type} {l : List (String × β)} {a : String}
    (h : a ∉ l.map Prod.fst) : List.lookup a l = none := by
  induction l with
  | nil => rfl
  | cons p rest ih =>
    rw [List.lookup]
    simp only [List.map_cons, List.mem_cons] at h
    push_neg at h
    rw [show (a == p.1) = false from beq_eq_false_iff_ne.mpr h.1]
    exact ih h.2

/-- A successful lookup returns `lookupTableD`. -/
theorem lookup_isSome_eq_lookupTableD {ts : List (String × Table)} {a : String}
    (h : (List.lookup a ts).isSome) : List.lookup a ts = some (lookupTableD ts a) := by
  obtain ⟨v, hv⟩ := Option.isSome_iff_exists.mp h
  rw [hv]
  simp [lookupTableD, hv]

/-- Lookup in the node tables finds the first node with the matching
lowercased label. -/
theorem lookup_nodeTablesOf (ns : List NodeType) (lbl : String) :
    List.lookup lbl (nodeTablesOf ns) =
      (ns.find? (fun n => strLower n.label == lbl)).map nodeTableOf := by
  induction ns with
  | nil => rfl
  | cons n rest ih =>
    rw [nodeTablesOf, List.map_cons, List.lookup, List.find?]
    by_cases h : strLower n.label = lbl
    · rw [show (lbl == strLower n.label) = true from beq_iff_eq.mpr h.symm,
        show (strLower n.label == lbl) = true from beq_iff_eq.mpr h]
      rfl
    · rw [show (lbl == strLower n.label) = false from
        beq_eq_false_iff_ne.mpr (fun hh => h hh.symm),
        show (strLower n.label == lbl) = false from beq_eq_false_iff_ne.mpr h]
      exact ih

/-- The node loop of `infer_sdt` appends one table and one rule per node,
in order, provided the lowercased labels are fresh and duplicate-free. -/
theorem inferNodes_eq :
    ∀ (ns : List NodeType) (ts : List (String × Table)) (rules : SDT),
    (∀ n ∈ ns, strLower n.label ∉ ts.map Prod.fst) →
    (ns.map (fun n => strLower n.label)).Nodup →
    inferNodes ns ⟨ts⟩ rules =
      Except.ok (⟨ts ++ nodeTablesOf ns⟩, rules ++ ns.map nodeRuleOf) := by
  intro ns
  induction ns with
  | nil => intro ts rules _ _; simp [inferNodes, nodeTablesOf]
  | cons n rest ih =>
    intro ts rules hfresh hnodup
    have hlook : List.lookup (strLower n.label) ts = none :=
      lookup_eq_none_of_not_mem (hfresh n (List.mem_cons_self n rest))
    have hadd : RelationalSchema.add_table ⟨ts⟩ (nodeTableOf n) =
        Except.ok ⟨ts ++ [(strLower n.label, nodeTableOf n)]⟩ := by
      unfold RelationalSchema.add_table
      rw [show (nodeTableOf n).name = strLower n.label from rfl]
      rw [hlook]
      rfl
    rw [inferNodes]
    rw [show ({ name := strLower n.label, attrs := n.keys, pk := n.default_key } : Table)
        = nodeTableOf n from rfl]
    rw [hadd, except_bind_ok]
    have hfresh' : ∀ m ∈ rest,
        strLower m.label ∉ (ts ++ [(strLower n.label, nodeTableOf n)]).map Prod.fst := by
      intro m hm
      simp only [List.map_append, List.map_cons, List.map_nil, List.mem_append,
        List.mem_singleton]
      rintro (hin | heq)
      · exact hfresh m (List.mem_cons_of_mem n hm) hin
      · have h1 := (List.nodup_cons.mp hnodup).1
        have h2 : strLower m.label ∈ rest.map (fun x => strLower x.label) :=
          List.mem_map_of_mem (fun x => strLower x.label) hm
        rw [heq] at h2
        exact h1 h2
    have hnodup' := (List.nodup_cons.mp hnodup).2
    rw [ih (ts ++ [(strLower n.label, nodeTableOf n)]) _ hfresh' hnodup']
    simp [nodeTablesOf, nodeRuleOf]

/-- The edge loop of `infer_sdt` appends one table (endpoints resolved in
the node-table segment) and one rule per edge, in order. -/
theorem inferEdges_eq :
    ∀ (es : List EdgeType) (nt acc : List (String × Table)) (rules : SDT),
    (∀ e ∈ es, (List.lookup (strLower e.src_label) nt).isSome ∧
               (List.lookup (strLower e.tgt_label) nt).isSome) →
    (∀ e ∈ es, strLower e.label ∉ (nt ++ acc).map Prod.fst) →
    (es.map (fun e => strLower e.label)).Nodup →
    inferEdges es ⟨nt ++ acc⟩ rules =
      Except.ok (⟨nt ++ acc ++ es.map (fun e => (strLower e.label, edgeTableOfNT nt e))⟩,
        rules ++ es.map edgeRuleOf) := by
  intro es
  induction es with
  | nil => intro nt acc rules _ _ _; simp [inferEdges]
  | cons e rest ih =>
    intro nt acc rules hres hfresh hnodup
    obtain ⟨hsrc, htgt⟩ := hres e (List.mem_cons_self e rest)
    have hsrc' : List.lookup (strLower e.src_label) (nt ++ acc) =
        some (lookupTableD nt (strLower e.src_label)) :=
      lookup_append_some (lookup_isSome_eq_lookupTableD hsrc)
    have htgt' : List.lookup (strLower e.tgt_label) (nt ++ acc) =
        some (lookupTableD nt (strLower e.tgt_label)) :=
      lookup_append_some (lookup_isSome_eq_lookupTableD htgt)
    have hget_src : RelationalSchema.get_table ⟨nt ++ acc⟩ (strLower e.src_label) =
        Except.ok (lookupTableD nt (strLower e.src_label)) := by
      unfold RelationalSchema.get_table
      rw [hsrc']
    have hget_tgt : RelationalSchema.get_table ⟨nt ++ acc⟩ (strLower e.tgt_label) =
        Except.ok (lookupTableD nt (strLower e.tgt_label)) := by
      unfold RelationalSchema.get_table
      rw [htgt']
    have hlook : List.lookup (strLower e.label) (nt ++ acc) = none :=
      lookup_eq_none_of_not_mem (hfresh e (List.mem_cons_self e rest))
    have hadd : RelationalSchema.add_table ⟨nt ++ acc⟩ (edgeTableOfNT nt e) =
        Except.ok ⟨(nt ++ acc) ++ [(strLower e.label, edgeTableOfNT nt e)]⟩ := by
      unfold RelationalSchema.add_table
      rw [show (edgeTableOfNT nt e).name = strLower e.label from rfl]
      rw [hlook]
      rfl
    have htbl :
        ({ name := strLower e.label, attrs := e.keys ++ ["SRC", "TGT"],
           pk := e.default_key,
           fks := [("SRC", (lookupTableD nt (strLower e.src_label)).name,
                     (lookupTableD nt (strLower e.src_label)).pk),
                   ("TGT", (lookupTableD nt (strLower e.tgt_label)).name,
                     (lookupTableD nt (strLower e.tgt_label)).pk)] } : Table) =
          edgeTableOfNT nt e := rfl
    rw [inferEdges]
    rw [hget_src, except_bind_ok, hget_tgt, except_bind_ok]
    rw [htbl]
    dsimp only
    rw [hadd, except_bind_ok]
    have hfresh' : ∀ f ∈ rest, strLower f.label ∉
        (nt ++ (acc ++ [(strLower e.label, edgeTableOfNT nt e)])).map Prod.fst := by
      intro f hf
      simp only [List.map_append, List.map_cons, List.map_nil, List.mem_append,
        List.mem_singleton]
      rintro (hin | hin2)
      · exact hfresh f (List.mem_cons_of_mem e hf)
          (by simp only [List.map_append, List.mem_append]; exact Or.inl hin)
      · rcases hin2 with hin2 | heq
        · exact hfresh f (List.mem_cons_of_mem e hf)
            (by simp only [List.map_append, List.mem_append]; exact Or.inr hin2)
        · have h1 := (List.nodup_cons.mp hnodup).1
          have h2 : strLower f.label ∈ rest.map (fun x => strLower x.label) :=
            List.mem_map_of_mem (fun x => strLower x.label) hf
          rw [heq] at h2
          exact h1 h2
    have hres' : ∀ f ∈ rest, (List.lookup (strLower f.src_label) nt).isSome ∧
        (List.lookup (strLower f.tgt_label) nt).isSome :=
      fun f hf => hres f (List.mem_cons_of_mem e hf)
    have hnodup' := (List.nodup_cons.mp hnodup).2
    rw [show (nt ++ acc) ++ [(strLower e.label, edgeTableOfNT nt e)] =
        nt ++ (acc ++ [(strLower e.label, edgeTableOfNT nt e)]) from by
      rw [List.append_assoc]]
    rw [ih nt (acc ++ [(strLower e.label, edgeTableOfNT nt e)]) _ hres' hfresh' hnodup']
    simp [edgeRuleOf]

/-- C3: under a well-formed graph schema (distinct lowercased labels,
node and edge labels disjoint after lowering, edge endpoints present),
`infer_sdt` succeeds and produces exactly: one table per node in
insertion order (lowercased name, attrs = keys, pk = default key = first
key, no FKs), then one table per edge in insertion order (attrs = keys
++ [SRC, TGT], pk = default key, FKs SRC and TGT to the endpoint node
tables), and the SDT rules in the same order; each edge FK names the
lowercased endpoint label and that node table's pk. -/
theorem infer_sdt_induced_schema_shape (g : GraphSchema)
    (hn : (g.nodes.map (fun n => strLower n.label)).Nodup)
    (he : (g.edges.map (fun e => strLower e.label)).Nodup)
    (hdisj : ∀ e ∈ g.edges, strLower e.label ∉ g.nodes.map (fun n => strLower n.label))
    (hsrc : ∀ e ∈ g.edges, ∃ n ∈ g.nodes, strLower n.label = strLower e.src_label)
    (htgt : ∀ e ∈ g.edges, ∃ n ∈ g.nodes, strLower n.label = strLower e.tgt_label) :
    infer_sdt g = Except.ok
      { schema := ⟨nodeTablesOf g.nodes ++
          g.edges.map (fun e => (strLower e.label, edgeTableOfNT (nodeTablesOf g.nodes) e))⟩,
        sdt := g.nodes.map nodeRuleOf ++ g.edges.map edgeRuleOf } ∧
    (∀ e ∈ g.edges, (edgeTableOfNT (nodeTablesOf g.nodes) e).fks =
      [("SRC", strLower e.src_label,
         (lookupTableD (nodeTablesOf g.nodes) (strLower e.src_label)).pk),
       ("TGT", strLower e.tgt_label,
         (lookupTableD (nodeTablesOf g.nodes) (strLower e.tgt_label)).pk)]) := by
  have hname : ∀ lbl, (List.lookup lbl (nodeTablesOf g.nodes)).isSome →
      (lookupTableD (nodeTablesOf g.nodes) lbl).name = lbl := by
    intro lbl hs
    have := lookup_isSome_eq_lookupTableD hs
    rw [lookup_nodeTablesOf] at this
    cases hf : g.nodes.find? (fun n => strLower n.label == lbl) with
    | none => rw [hf] at this; cases this
    | some n =>
      rw [hf] at this
      simp only [Option.map_some', Option.some.injEq] at this
      have hpred := List.find?_some hf
      have : (lookupTableD (nodeTablesOf g.nodes) lbl) = nodeTableOf n := this.symm
      rw [this]
      simpa [nodeTableOf] using (by simpa using hpred : strLower n.label = lbl)
  have hlookups : ∀ e ∈ g.edges,
      (List.lookup (strLower e.src_label) (nodeTablesOf g.nodes)).isSome ∧
      (List.lookup (strLower e.tgt_label) (nodeTablesOf g.nodes)).isSome := by
    intro e hmem
    constructor
    · obtain ⟨n, hnmem, hl⟩ := hsrc e hmem
      rw [lookup_nodeTablesOf]
      have : g.nodes.find? (fun n => strLower n.label == strLower e.src_label) |>.isSome := by
        rw [List.find?_isSome]
        exact ⟨n, hnmem, by simpa using hl⟩
      simpa using this
    · obtain ⟨n, hnmem, hl⟩ := htgt e hmem
      rw [lookup_nodeTablesOf]
      have : g.nodes.find? (fun n => strLower n.label == strLower e.tgt_label) |>.isSome := by
        rw [List.find?_isSome]
        exact ⟨n, hnmem, by simpa using hl⟩
      simpa using this
  constructor
  · unfold infer_sdt
    have h1 := inferNodes_eq g.nodes [] [] (by simp) hn
    have hfresh : ∀ e ∈ g.edges,
        strLower e.label ∉ (nodeTablesOf g.nodes ++ ([] : List (String × Table))).map Prod.fst := by
      intro e hmem
      simp only [List.append_nil, nodeTablesOf, List.map_map]
      intro hmem2
      refine hdisj e hmem ?_
      simpa [Function.comp] using hmem2
    have h2 := inferEdges_eq g.edges (nodeTablesOf g.nodes) [] (g.nodes.map nodeRuleOf)
      hlookups hfresh he
    simp only [List.append_nil] at h2
    rw [show (⟨[]⟩ : RelationalSchema) = ⟨([] : List (String × Table))⟩ from rfl]
    rw [h1, except_bind_ok]
    dsimp only
    simp only [List.nil_append]
    rw [h2, except_bind_ok]
  · intro e hmem
    obtain ⟨hs, ht⟩ := hlookups e hmem
    rw [edgeTableOfNT]
    rw [hname _ hs, hname _ ht]

/-- Witness for C3 at the test suite's schema. -/
theorem infer_sdt_induced_schema_shape_witness :
    infer_sdt demoGraph = Except.ok
      { schema := ⟨nodeTablesOf demoGraph.nodes ++
          demoGraph.edges.map
            (fun e => (strLower e.label, edgeTableOfNT (nodeTablesOf demoGraph.nodes) e))⟩,
        sdt := demoGraph.nodes.map nodeRuleOf ++ demoGraph.edges.map edgeRuleOf } ∧
    (∀ e ∈ demoGraph.edges, (edgeTableOfNT (nodeTablesOf demoGraph.nodes) e).fks =
      [("SRC", strLower e.src_label,
         (lookupTableD (nodeTablesOf demoGraph.nodes) (strLower e.src_label)).pk),
       ("TGT", strLower e.tgt_label,
         (lookupTableD (nodeTablesOf demoGraph.nodes) (strLower e.tgt_label)).pk)]) :=
  infer_sdt_induced_schema_shape demoGraph (by decide) (by decide) (by decide)
    (by decide) (by decide)

/-- The induced relational schema of `demoGraph`, written out. -/
def demoInduced : RelationalSchema :=
  ⟨[("person", { name := "person", attrs := ["pid", "name"], pk := "pid" }),
    ("company", { name := "company", attrs := ["cid", "title"], pk := "cid" }),
    ("works_at", { name := "works_at", attrs := ["wid", "SRC", "TGT"], pk := "wid",
                   fks := [("SRC", "person", "pid"), ("TGT", "company", "cid")] })]⟩

/-- A RETURN list with one plain and one aggregate expression. -/
def demoAggExprs : List CyExpr :=
  [CyExpr.prop "p" "pid", CyExpr.agg "COUNT" (CyExpr.strLit "*")]

/-- The translations of `demoAggExprs`. -/
def demoAggSqlExprs : List SQLExpr :=
  [SQLExpr.column "p" "pid", SQLExpr.func "COUNT" [SQLExpr.star]]

/-- The RETURN aliases used with `demoAggExprs`. -/
def demoNames : List String := ["pid", "n"]

/-- A single-node MATCH clause over `demoInduced`. -/
def demoClause : Clause := Clause.matchC ⟨[PatItem.node ⟨"p", "Person"⟩]⟩ none

/-- Witness for C5 at a concrete aggregate RETURN. -/
theorem transpile_return_projection_witness :
    ((demoNames.zip demoAggSqlExprs).map Prod.fst = demoNames ∧
     (demoNames.zip demoAggSqlExprs).length = demoAggExprs.length) ∧
    (demoAggExprs.any is_agg_expr = false →
      transpile_query [] demoInduced (Query.returnQ demoClause demoAggExprs demoNames) =
        Except.ok (SQL.project (SQL.fromTable "person" "p")
          (demoNames.zip demoAggSqlExprs))) ∧
    (demoAggExprs.any is_agg_expr = true →
      ∃ ks, (demoAggExprs.filter (fun e => !is_agg_expr e)).mapM to_sql_expr =
          Except.ok ks ∧
        transpile_query [] demoInduced (Query.returnQ demoClause demoAggExprs demoNames) =
          Except.ok (SQL.groupBy (SQL.fromTable "person" "p") (dedupKeys ks)
            (demoNames.zip demoAggSqlExprs) none) ∧
        (dedupKeys ks).Nodup ∧ (∀ k, k ∈ dedupKeys ks ↔ k ∈ ks)) :=
  transpile_return_projection [] demoInduced demoClause demoAggExprs demoNames
    ["p"] (SQL.fromTable "person" "p") demoAggSqlExprs (by rfl) (by rfl) (by rfl)

-- ===========================================================================
-- Table-equivalence oracle (src/graphiti/pipeline/reduce_sql.py)
-- ===========================================================================

section TableEquivalence

variable {V : Type} [DecidableEq V] [Inhabited V]

/-- `column_signature` (src/graphiti/pipeline/reduce_sql.py, lines 50-53):
the multiset (`Counter`) of the column's values.  `row[idx]` is embedded
as `getD` with a junk default; the function is only applied after the
rectangularity checks, with `idx` inside every row. -/
def column_signature (rows : List (List V)) (idx : Nat) : Multiset V :=
  ↑(rows.map (fun row => row.getD idx default))

/-- `bags_equal` (lines 106-109): `Counter` equality of the row lists. -/
def bags_equal (rows1 rows2 : List (List V)) : Bool :=
  decide ((↑rows1 : Multiset (List V)) = ↑rows2)

/-- `apply_perm` (lines 100-103). -/
def apply_perm (rows : List (List V)) (perm : List Nat) : List (List V) :=
  rows.map (fun row => perm.map (fun idx => row.getD idx default))

/-- The loop of `greedy_match_by_signature` (lines 56-68): for each
signature of `sigs`, the candidate positions of `sig2` with an equal
signature and not yet used; a slot is filled only when the candidate is
unique, and then marked used. -/
def greedyGo (sig2 : List (Multiset V)) : List (Multiset V) → List Nat → List (Option Nat)
  | [], _ => []
  | sig :: rest, used =>
    match (List.range sig2.length).filter
        (fun j => decide (sig2.getD j 0 = sig) && !(used.contains j)) with
    | [j] => some j :: greedyGo sig2 rest (used ++ [j])
    | _ => none :: greedyGo sig2 rest used

/-- `greedy_match_by_signature` (lines 56-68): the filled mapping when
every slot was filled, else `None`. -/
def greedy_match_by_signature (sig1 sig2 : List (Multiset V)) : Option (List Nat) :=
  if (greedyGo sig2 sig1 []).all Option.isSome then
    some ((greedyGo sig2 sig1 []).filterMap id)
  else none

/-- The `possible_positions` loop of `generate_candidate_perms` (lines
74-81): signature-compatible positions per column, `none` when one
column has no candidate (Python returns the empty iterator). -/
def possiblePositions (sig2 : List (Multiset V)) :
    List (Multiset V) → Option (List (List Nat))
  | [] => some []
  | sig :: rest =>
    match (List.range sig2.length).filter (fun j => decide (sig2.getD j 0 = sig)) with
    | [] => none
    | ps => (possiblePositions sig2 rest).map (ps :: ·)

/-- The `backtrack` generator of `generate_candidate_perms` (lines
84-97): all ways of picking one unused candidate per position. -/
def backtrackPerms : List (List Nat) → List Nat → List (List Nat)
  | [], _ => [[]]
  | ps :: rest, used =>
    ps.flatMap (fun c =>
      if c ∈ used then []
      else (backtrackPerms rest (used ++ [c])).map (c :: ·))

/-- `generate_candidate_perms` (lines 71-97). -/
def generate_candidate_perms (sig1 sig2 : List (Multiset V)) : List (List Nat) :=
  match possiblePositions sig2 sig1 with
  | none => []
  | some poss => backtrackPerms poss []

/-- The two signature-list comprehensions of `table_equivalent`
(lines 37-38). -/
def sigsOf (rows : List (List V)) (len_cols : Nat) : List (Multiset V) :=
  (List.range len_cols).map (column_signature rows)

/-- `table_equivalent` (src/graphiti/pipeline/reduce_sql.py, lines
22-47): empty/length/rectangularity checks, then the greedy signature
match, falling back to the backtracking enumeration only when the greedy
mapping is incomplete. -/
def table_equivalent (rows1 rows2 : List (List V)) : Except PyErr Bool :=
  if rows1 = [] ∧ rows2 = [] then Except.ok true
  else if rows1.length ≠ rows2.length then Except.ok false
  else if rows1 = [] then Except.ok true
  else if rows1.any (fun row => row.length ≠ (rows1.headI).length) then
    Except.error (PyErr.valueError "rows1 không đồng nhất số cột")
  else if rows2.any (fun row => row.length ≠ (rows1.headI).length) then
    Except.error (PyErr.valueError "rows2 không đồng nhất số cột")
  else
    match greedy_match_by_signature (sigsOf rows1 (rows1.headI).length)
        (sigsOf rows2 (rows1.headI).length) with
    | some mapping => Except.ok (bags_equal rows1 (apply_perm rows2 mapping))
    | none =>
      Except.ok ((generate_candidate_perms (sigsOf rows1 (rows1.headI).length)
        (sigsOf rows2 (rows1.headI).length)).any
          (fun p => bags_equal rows1 (apply_perm rows2 p)))

/-- The claim's right-hand side, clause (b): equal arity. -/
def sameArity (rows1 rows2 : List (List V)) : Prop :=
  ∀ r1 ∈ rows1, ∀ r2 ∈ rows2, r1.length = r2.length

/-- The claim's right-hand side, clause (c): a column permutation under
which the two bags agree. -/
def existsColumnPerm (rows1 rows2 : List (List V)) : Prop :=
  ∃ perm : List Nat, perm.Perm (List.range (rows1.headI).length) ∧
    bags_equal rows1 (apply_perm rows2 perm) = true

/-- Membership in the backtracking enumeration: exactly the duplicate-free
choices of one candidate per position, avoiding `used`. -/
theorem mem_backtrackPerms :
    ∀ (poss : List (List Nat)) (used p : List Nat),
    p ∈ backtrackPerms poss used ↔
      (List.Forall₂ (fun c ps => c ∈ ps) p poss ∧ p.Nodup ∧ ∀ x ∈ p, x ∉ used) := by
  intro poss
  induction poss with
  | nil =>
    intro used p
    simp only [backtrackPerms, List.mem_singleton]
    constructor
    · rintro rfl
      exact ⟨List.Forall₂.nil, List.nodup_nil, by simp⟩
    · rintro ⟨hf, -, -⟩
      cases hf
      rfl
  | cons ps rest ih =>
    intro used p
    simp only [backtrackPerms, List.mem_flatMap]
    constructor
    · rintro ⟨c, hc, hp⟩
      by_cases hcu : c ∈ used
      · rw [if_pos hcu] at hp; cases hp
      · rw [if_neg hcu] at hp
        simp only [List.mem_map] at hp
        obtain ⟨q, hq, rfl⟩ := hp
        obtain ⟨hf, hnd, hu⟩ := (ih (used ++ [c]) q).mp hq
        refine ⟨List.Forall₂.cons hc hf, ?_, ?_⟩
        · rw [List.nodup_cons]
          exact ⟨fun hcq => (hu c hcq) (by simp), hnd⟩
        · intro x hx
          rcases List.mem_cons.mp hx with rfl | hxq
          · exact hcu
          · intro hxu
            exact hu x hxq (by simp [hxu])
    · rintro ⟨hf, hnd, hu⟩
      obtain ⟨c, q, hc, hf', rfl⟩ := List.forall₂_cons_right_iff.mp hf
      have hcu : c ∉ used := hu c (List.mem_cons_self c q)
      refine ⟨c, hc, ?_⟩
      rw [if_neg hcu]
      simp only [List.mem_map]
      refine ⟨q, (ih (used ++ [c]) q).mpr ⟨hf', (List.nodup_cons.mp hnd).2, ?_⟩, rfl⟩
      intro x hx
      simp only [List.mem_append, List.mem_singleton]
      rintro (hxu | rfl)
      · exact hu x (List.mem_cons_of_mem c hx) hxu
      · exact (List.nodup_cons.mp hnd).1 hx

/-- When `possible_positions` fails, some column has no candidate. -/
theorem possiblePositions_none_iff (sig2 : List (Multiset V)) :
    ∀ (sigs : List (Multiset V)),
    possiblePositions sig2 sigs = none ↔
      ∃ sig ∈ sigs,
        (List.range sig2.length).filter (fun j => decide (sig2.getD j 0 = sig)) = [] := by
  intro sigs
  induction sigs with
  | nil => simp [possiblePositions]
  | cons sig rest ih =>
    rw [possiblePositions]
    cases hfil : (List.range sig2.length).filter (fun j => decide (sig2.getD j 0 = sig)) with
    | nil =>
      simp only [List.mem_cons]
      constructor
      · intro _
        exact ⟨sig, Or.inl rfl, hfil⟩
      · intro _
        trivial
    | cons a as =>
      constructor
      · intro h
        cases hpp : possiblePositions sig2 rest with
        | none =>
          obtain ⟨s, hs, hse⟩ := ih.mp hpp
          exact ⟨s, List.mem_cons_of_mem sig hs, hse⟩
        | some poss => rw [hpp] at h; cases h
      · rintro ⟨s, hs, hse⟩
        rcases List.mem_cons.mp hs with rfl | hs'
        · rw [hse] at hfil; cases hfil
        · rw [ih.mpr ⟨s, hs', hse⟩]
          rfl

/-- When `possible_positions` succeeds it is exactly the per-column
candidate filter. -/
theorem possiblePositions_some (sig2 : List (Multiset V)) :
    ∀ (sigs : List (Multiset V)) (poss : List (List Nat)),
    possiblePositions sig2 sigs = some poss →
      poss = sigs.map
        (fun sig => (List.range sig2.length).filter (fun j => decide (sig2.getD j 0 = sig))) := by
  intro sigs
  induction sigs with
  | nil => intro poss h; cases h; rfl
  | cons sig rest ih =>
    intro poss h
    rw [possiblePositions] at h
    cases hfil : (List.range sig2.length).filter (fun j => decide (sig2.getD j 0 = sig)) with
    | nil => rw [hfil] at h; cases h
    | cons a as =>
      rw [hfil] at h
      cases hpp : possiblePositions sig2 rest with
      | none => rw [hpp] at h; cases h
      | some poss' =>
        rw [hpp] at h
        simp only [Option.map_some', Option.some.injEq] at h
        subst h
        rw [List.map_cons, hfil, ih poss' hpp]

/-- Membership in `generate_candidate_perms`: exactly the duplicate-free
signature-respecting index choices. -/
theorem mem_generate_candidate_perms {sig1 sig2 : List (Multiset V)} {p : List Nat} :
    p ∈ generate_candidate_perms sig1 sig2 ↔
      (List.Forall₂ (fun c sig => c < sig2.length ∧ sig2.getD c 0 = sig) p sig1 ∧
        p.Nodup) := by
  unfold generate_candidate_perms
  cases hpp : possiblePositions sig2 sig1 with
  | none =>
    simp only [List.not_mem_nil, false_iff]
    rintro ⟨hf, -⟩
    obtain ⟨s, hs, hse⟩ := (possiblePositions_none_iff sig2 sig1).mp hpp
    obtain ⟨i, hi⟩ := List.mem_iff_get.mp hs
    have hlen := hf.length_eq
    have hrel := (List.forall₂_iff_get.mp hf).2 i (by omega) i.isLt
    rw [hi] at hrel
    have : (p.get ⟨i, by omega⟩) ∈
        (List.range sig2.length).filter (fun j => decide (sig2.getD j 0 = s)) := by
      simp only [List.mem_filter, List.mem_range, decide_eq_true_eq]
      exact ⟨hrel.1, hrel.2⟩
    rw [hse] at this
    cases this
  | some poss =>
    have hposs := possiblePositions_some sig2 sig1 poss hpp
    subst hposs
    rw [mem_backtrackPerms]
    simp only [List.forall₂_map_right_iff, List.mem_filter, List.mem_range,
      decide_eq_true_eq]
    constructor
    · rintro ⟨hf, hnd, -⟩
      exact ⟨hf.imp (fun a b h => ⟨h.1, h.2⟩), hnd⟩
    · rintro ⟨hf, hnd⟩
      exact ⟨hf.imp (fun a b h => ⟨h.1, h.2⟩), hnd, by simp⟩


/-- A `Forall₂` hypothesis gives a related partner for every left element. -/
theorem mem_of_forall₂ {α β : Type _} {R : α → β → Prop} :
    ∀ {l1 : List α} {l2 : List β}, List.Forall₂ R l1 l2 → ∀ x ∈ l1, ∃ y, R x y := by
  intro l1 l2 h
  induction h with
  | nil => intro x hx; cases hx
  | cons hr _ ih =>
    intro x hx
    rcases List.mem_cons.mp hx with rfl | hx2
    · exact ⟨_, hr⟩
    · exact ih x hx2

/-- `List.contains` is membership, via `elem`. -/
theorem contains_eq_decide_mem (l : List Nat) (a : Nat) :
    l.contains a = decide (a ∈ l) :=
  List.elem_eq_mem a l

/-- Soundness of the greedy loop: when every slot was filled, the compacted
mapping consists of bounded, signature-matching, pairwise-distinct positions
outside `used`. -/
theorem greedyGo_sound (sig2 : List (Multiset V)) :
    ∀ (sigs : List (Multiset V)) (used : List Nat),
    (greedyGo sig2 sigs used).all Option.isSome = true →
      List.Forall₂ (fun c sig => c < sig2.length ∧ sig2.getD c 0 = sig)
          ((greedyGo sig2 sigs used).filterMap id) sigs ∧
        ((greedyGo sig2 sigs used).filterMap id).Nodup ∧
        ∀ x ∈ (greedyGo sig2 sigs used).filterMap id, x ∉ used := by
  intro sigs
  induction sigs with
  | nil =>
    intro used _
    exact ⟨List.Forall₂.nil, List.nodup_nil,
      fun x hx => absurd hx (List.not_mem_nil x)⟩
  | cons sig rest ih =>
    intro used hall
    rw [greedyGo] at hall ⊢
    cases hfil : (List.range sig2.length).filter
        (fun j => decide (sig2.getD j 0 = sig) && !(used.contains j)) with
    | nil =>
      rw [hfil] at hall
      simp at hall
    | cons j t =>
      cases t with
      | cons k ks =>
        rw [hfil] at hall
        simp at hall
      | nil =>
        rw [hfil] at hall
        dsimp only at hall ⊢
        simp only [List.all_cons, Option.isSome_some, Bool.true_and] at hall
        have hj : j ∈ (List.range sig2.length).filter
            (fun j => decide (sig2.getD j 0 = sig) && !(used.contains j)) := by
          rw [hfil]
          exact List.mem_singleton_self j
        simp only [List.mem_filter, List.mem_range, Bool.and_eq_true,
          decide_eq_true_eq, Bool.not_eq_true', contains_eq_decide_mem,
          decide_eq_false_iff_not] at hj
        obtain ⟨hjlt, hjsig, hjused⟩ := hj
        obtain ⟨hf, hnd, hu⟩ := ih (used ++ [j]) hall
        rw [show (List.filterMap id (some j :: greedyGo sig2 rest (used ++ [j]))) =
            j :: List.filterMap id (greedyGo sig2 rest (used ++ [j])) from rfl]
        refine ⟨List.Forall₂.cons ⟨hjlt, hjsig⟩ hf, ?_, ?_⟩
        · rw [List.nodup_cons]
          refine ⟨fun hjin => ?_, hnd⟩
          exact hu j hjin (by simp)
        · intro x hx
          rcases List.mem_cons.mp hx with rfl | hx2
          · exact hjused
          · intro hxu
            exact hu x hx2 (by simp [hxu])

/-- Uniqueness of the greedy mapping: any bounded, signature-matching,
duplicate-free assignment avoiding `used` coincides with a fully filled
greedy mapping. -/
theorem greedyGo_unique (sig2 : List (Multiset V)) :
    ∀ (sigs : List (Multiset V)) (used p : List Nat),
    (greedyGo sig2 sigs used).all Option.isSome = true →
    List.Forall₂ (fun c sig => c < sig2.length ∧ sig2.getD c 0 = sig) p sigs →
    p.Nodup → (∀ x ∈ p, x ∉ used) →
    p = (greedyGo sig2 sigs used).filterMap id := by
  intro sigs
  induction sigs with
  | nil =>
    intro used p _ hf _ _
    cases hf
    rfl
  | cons sig rest ih =>
    intro used p hall hf hnd hu
    obtain ⟨c, q, hc, hf2, rfl⟩ := List.forall₂_cons_right_iff.mp hf
    obtain ⟨hclt, hcsig⟩ := hc
    have hcu : c ∉ used := hu c (List.mem_cons_self c q)
    rw [greedyGo] at hall ⊢
    cases hfil : (List.range sig2.length).filter
        (fun j => decide (sig2.getD j 0 = sig) && !(used.contains j)) with
    | nil =>
      have hcmem : c ∈ (List.range sig2.length).filter
          (fun j => decide (sig2.getD j 0 = sig) && !(used.contains j)) := by
        simp only [List.mem_filter, List.mem_range, Bool.and_eq_true,
          decide_eq_true_eq, Bool.not_eq_true', contains_eq_decide_mem,
          decide_eq_false_iff_not]
        exact ⟨hclt, hcsig, hcu⟩
      rw [hfil] at hcmem
      cases hcmem
    | cons j t =>
      cases t with
      | cons k ks =>
        rw [hfil] at hall
        simp at hall
      | nil =>
        have hcmem : c ∈ (List.range sig2.length).filter
            (fun j => decide (sig2.getD j 0 = sig) && !(used.contains j)) := by
          simp only [List.mem_filter, List.mem_range, Bool.and_eq_true,
            decide_eq_true_eq, Bool.not_eq_true', contains_eq_decide_mem,
            decide_eq_false_iff_not]
          exact ⟨hclt, hcsig, hcu⟩
        rw [hfil] at hcmem
        have hcj : c = j := List.mem_singleton.mp hcmem
        subst hcj
        rw [hfil] at hall
        dsimp only at hall ⊢
        simp only [List.all_cons, Option.isSome_some, Bool.true_and] at hall
        rw [show (List.filterMap id (some c :: greedyGo sig2 rest (used ++ [c]))) =
            c :: List.filterMap id (greedyGo sig2 rest (used ++ [c])) from rfl]
        have hq : q = (greedyGo sig2 rest (used ++ [c])).filterMap id := by
          refine ih (used ++ [c]) q hall hf2 (List.nodup_cons.mp hnd).2 ?_
          intro x hx
          simp only [List.mem_append, List.mem_singleton]
          rintro (hxu | rfl)
          · exact hu x (List.mem_cons_of_mem c hx) hxu
          · exact (List.nodup_cons.mp hnd).1 hx
        rw [hq]

/-- `greedy_match_by_signature` returning a mapping: the mapping is a
bounded, signature-matching, duplicate-free assignment. -/
theorem greedy_some_sound {sig1 sig2 : List (Multiset V)} {mapping : List Nat}
    (h : greedy_match_by_signature sig1 sig2 = some mapping) :
    List.Forall₂ (fun c sig => c < sig2.length ∧ sig2.getD c 0 = sig) mapping sig1 ∧
      mapping.Nodup := by
  rw [greedy_match_by_signature] at h
  by_cases hall : (greedyGo sig2 sig1 []).all Option.isSome = true
  · rw [if_pos hall] at h
    obtain ⟨hf, hnd, -⟩ := greedyGo_sound sig2 sig1 [] hall
    cases h
    exact ⟨hf, hnd⟩
  · rw [if_neg hall] at h
    cases h

/-- `greedy_match_by_signature` returning a mapping: the mapping is the
only bounded, signature-matching, duplicate-free assignment. -/
theorem greedy_some_unique {sig1 sig2 : List (Multiset V)} {mapping : List Nat}
    (h : greedy_match_by_signature sig1 sig2 = some mapping) (p : List Nat)
    (hf : List.Forall₂ (fun c sig => c < sig2.length ∧ sig2.getD c 0 = sig) p sig1)
    (hnd : p.Nodup) : p = mapping := by
  rw [greedy_match_by_signature] at h
  by_cases hall : (greedyGo sig2 sig1 []).all Option.isSome = true
  · rw [if_pos hall] at h
    cases h
    exact greedyGo_unique sig2 sig1 [] p hall hf hnd (by simp)
  · rw [if_neg hall] at h
    cases h


/-- Equal row bags have equal column signatures. -/
theorem column_signature_congr {rows1 rows2 : List (List V)}
    (h : (↑rows1 : Multiset (List V)) = ↑rows2) (i : Nat) :
    column_signature rows1 i = column_signature rows2 i := by
  unfold column_signature
  rw [← Multiset.map_coe, ← Multiset.map_coe, h]

/-- A column of a permuted table is the permuted source column. -/
theorem column_signature_apply_perm (rows : List (List V)) (p : List Nat)
    (i : Nat) (hi : i < p.length) :
    column_signature (apply_perm rows p) i = column_signature rows (p.getD i 0) := by
  unfold column_signature apply_perm
  rw [List.map_map]
  congr 1
  apply List.map_congr_left
  intro row _
  have h1 : i < (p.map (fun idx => row.getD idx default)).length := by
    simpa using hi
  show (p.map (fun idx => row.getD idx default)).getD i default = _
  rw [List.getD_eq_getElem _ _ h1, List.getElem_map,
    List.getD_eq_getElem p 0 hi]

/-- Length of the signature list. -/
theorem sigsOf_length (rows : List (List V)) (n : Nat) :
    (sigsOf rows n).length = n := by
  simp [sigsOf]

/-- Entries of the signature list, below the bound. -/
theorem sigsOf_getD (rows : List (List V)) {n i : Nat} (hi : i < n) :
    (sigsOf rows n).getD i 0 = column_signature rows i := by
  unfold sigsOf
  have h1 : i < ((List.range n).map (column_signature rows)).length := by
    simpa using hi
  rw [List.getD_eq_getElem _ _ h1, List.getElem_map, List.getElem_range]

/-- A duplicate-free list of `n` naturals below `n` is a permutation of
`range n`. -/
theorem perm_range_of_nodup_bounded {p : List Nat} {n : Nat} (hnd : p.Nodup)
    (hb : ∀ x ∈ p, x < n) (hlen : p.length = n) : p.Perm (List.range n) := by
  have hsub : p ⊆ List.range n := fun x hx => List.mem_range.mpr (hb x hx)
  exact (List.subperm_of_subset hnd hsub).perm_of_length_le
    (by simp [hlen])

/-- A column permutation under which the bags agree is a signature-matching
duplicate-free assignment between the two signature lists. -/
theorem sigCond_of_perm {rows1 rows2 : List (List V)} {p : List Nat} {n : Nat}
    (hperm : p.Perm (List.range n))
    (hbags : bags_equal rows1 (apply_perm rows2 p) = true) :
    List.Forall₂
        (fun c sig => c < (sigsOf rows2 n).length ∧ (sigsOf rows2 n).getD c 0 = sig)
        p (sigsOf rows1 n) ∧ p.Nodup := by
  have hplen : p.length = n := by
    have h := hperm.length_eq
    simpa using h
  have hbnd : ∀ x ∈ p, x < n := fun x hx =>
    List.mem_range.mp (hperm.mem_iff.mp hx)
  have hnd : p.Nodup := hperm.nodup_iff.mpr (List.nodup_range n)
  refine ⟨?_, hnd⟩
  have hmult : (↑rows1 : Multiset (List V)) = ↑(apply_perm rows2 p) :=
    of_decide_eq_true hbags
  apply List.forall₂_of_length_eq_of_get
  · rw [hplen, sigsOf_length]
  · intro i h₁ h₂
    have hin : i < n := by rwa [hplen] at h₁
    have hpi : p.get ⟨i, h₁⟩ < n := hbnd _ (List.get_mem p i h₁)
    constructor
    · rwa [sigsOf_length]
    · have hgetD : p.getD i 0 = p.get ⟨i, h₁⟩ := by
        rw [List.getD_eq_getElem p 0 h₁]
        rfl
      rw [sigsOf_getD rows2 hpi]
      have hsig1 : (sigsOf rows1 n).get ⟨i, h₂⟩ = column_signature rows1 i := by
        unfold sigsOf
        show ((List.range n).map (column_signature rows1))[i] = _
        rw [List.getElem_map, List.getElem_range]
      rw [hsig1, column_signature_congr hmult i,
        column_signature_apply_perm rows2 p i (hplen ▸ hin), hgetD]


/-- In the main branch (non-empty, equal counts, both tables rectangular at
`rows1`'s arity) `table_equivalent` returns a boolean that is `true` exactly
when a bag-preserving column permutation exists. -/
theorem table_equivalent_main {rows1 rows2 : List (List V)}
    (hne : rows1 ≠ []) (hlen : rows1.length = rows2.length)
    (hrect1 : ∀ r ∈ rows1, r.length = (rows1.headI).length)
    (harity : ∀ r ∈ rows2, r.length = (rows1.headI).length) :
    ∃ b, table_equivalent rows1 rows2 = Except.ok b ∧
      (b = true ↔ existsColumnPerm rows1 rows2) := by
  have hc1 : ¬ (rows1 = [] ∧ rows2 = []) := fun h => hne h.1
  have hc2 : ¬ (rows1.length ≠ rows2.length) := fun h => h hlen
  have hc4 : ¬ ((rows1.any fun row => row.length ≠ (rows1.headI).length) = true) := by
    simp only [List.any_eq_true, decide_eq_true_eq, not_exists, not_and, not_not]
    exact hrect1
  have hc5 : ¬ ((rows2.any fun row => row.length ≠ (rows1.headI).length) = true) := by
    simp only [List.any_eq_true, decide_eq_true_eq, not_exists, not_and, not_not]
    exact harity
  unfold table_equivalent
  rw [if_neg hc1, if_neg hc2, if_neg hne, if_neg hc4, if_neg hc5]
  cases hg : greedy_match_by_signature (sigsOf rows1 (rows1.headI).length)
      (sigsOf rows2 (rows1.headI).length) with
  | some mapping =>
    dsimp only
    refine ⟨_, rfl, ?_⟩
    constructor
    · intro hb
      obtain ⟨hf, hnd⟩ := greedy_some_sound hg
      have hlenm : mapping.length = (rows1.headI).length := by
        rw [hf.length_eq, sigsOf_length]
      have hbnd : ∀ x ∈ mapping, x < (rows1.headI).length := by
        intro x hx
        obtain ⟨sig, hr⟩ := mem_of_forall₂ hf x hx
        have h2 := hr.1
        rwa [sigsOf_length] at h2
      exact ⟨mapping, perm_range_of_nodup_bounded hnd hbnd hlenm, hb⟩
    · rintro ⟨p, hperm, hbags⟩
      obtain ⟨hf, hnd⟩ := sigCond_of_perm hperm hbags
      have hpm := greedy_some_unique hg p hf hnd
      rw [← hpm]
      exact hbags
  | none =>
    dsimp only
    refine ⟨_, rfl, ?_⟩
    constructor
    · intro h
      obtain ⟨p, hp, hb⟩ := List.any_eq_true.mp h
      obtain ⟨hf, hnd⟩ := mem_generate_candidate_perms.mp hp
      have hlenp : p.length = (rows1.headI).length := by
        rw [hf.length_eq, sigsOf_length]
      have hbnd : ∀ x ∈ p, x < (rows1.headI).length := by
        intro x hx
        obtain ⟨sig, hr⟩ := mem_of_forall₂ hf x hx
        have h2 := hr.1
        rwa [sigsOf_length] at h2
      exact ⟨p, perm_range_of_nodup_bounded hnd hbnd hlenp, hb⟩
    · rintro ⟨p, hperm, hbags⟩
      obtain ⟨hf, hnd⟩ := sigCond_of_perm hperm hbags
      exact List.any_eq_true.mpr ⟨p, mem_generate_candidate_perms.mpr ⟨hf, hnd⟩, hbags⟩

/-- In the arity-mismatch branch (non-empty, equal counts, `rows1`
rectangular, some row of `rows2` of a different length) `table_equivalent`
raises the `rows2` `ValueError`. -/
theorem table_equivalent_arity_error {rows1 rows2 : List (List V)}
    (hne : rows1 ≠ []) (hlen : rows1.length = rows2.length)
    (hrect1 : ∀ r ∈ rows1, r.length = (rows1.headI).length)
    (hbad : ∃ r ∈ rows2, r.length ≠ (rows1.headI).length) :
    table_equivalent rows1 rows2 =
      Except.error (PyErr.valueError "rows2 không đồng nhất số cột") := by
  have hc1 : ¬ (rows1 = [] ∧ rows2 = []) := fun h => hne h.1
  have hc2 : ¬ (rows1.length ≠ rows2.length) := fun h => h hlen
  have hc4 : ¬ ((rows1.any fun row => row.length ≠ (rows1.headI).length) = true) := by
    simp only [List.any_eq_true, decide_eq_true_eq, not_exists, not_and, not_not]
    exact hrect1
  have hc5 : (rows2.any fun row => row.length ≠ (rows1.headI).length) = true := by
    rw [List.any_eq_true]
    obtain ⟨r, hr, hrne⟩ := hbad
    exact ⟨r, hr, by simp [hrne]⟩
  unfold table_equivalent
  rw [if_neg hc1, if_neg hc2, if_neg hne, if_neg hc4, if_pos hc5]

/-- **C4**: for rectangular `rows1` and `rows2`, `table_equivalent` returns
`True` exactly when the tables have the same row count, the same arity, and
some column permutation makes the row bags equal (two empty tables are
equivalent); but the arity `ValueError` is raised exactly when the row
counts agree and the arities differ — an arity mismatch accompanied by a
row-count mismatch returns `False` instead of raising — and the error is
always the `rows2` `ValueError`. -/
theorem table_equivalent_characterization (rows1 rows2 : List (List V))
    (hrect1 : ∀ r ∈ rows1, r.length = (rows1.headI).length)
    (hrect2 : ∀ r ∈ rows2, r.length = (rows2.headI).length) :
    (table_equivalent rows1 rows2 = Except.ok true ↔
      (rows1.length = rows2.length ∧ sameArity rows1 rows2 ∧
        existsColumnPerm rows1 rows2))
    ∧ ((∃ e, table_equivalent rows1 rows2 = Except.error e) ↔
      (rows1.length = rows2.length ∧ ¬ sameArity rows1 rows2))
    ∧ (∀ e, table_equivalent rows1 rows2 = Except.error e →
        e = PyErr.valueError "rows2 không đồng nhất số cột") := by
  by_cases hemp : rows1 = [] ∧ rows2 = []
  · obtain ⟨rfl, rfl⟩ := hemp
    have hres : table_equivalent ([] : List (List V)) [] = Except.ok true := by
      unfold table_equivalent
      rw [if_pos ⟨rfl, rfl⟩]
    refine ⟨?_, ?_, ?_⟩
    · rw [hres]
      constructor
      · intro _
        exact ⟨rfl, fun r1 h1 => (List.not_mem_nil r1 h1).elim,
          [], List.Perm.nil, decide_eq_true rfl⟩
      · intro _
        rfl
    · constructor
      · rintro ⟨e, he⟩
        rw [hres] at he
        cases he
      · rintro ⟨-, hsa⟩
        exact absurd (fun r1 h1 => (List.not_mem_nil r1 h1).elim) hsa
    · intro e he
      rw [hres] at he
      cases he
  · by_cases hlen : rows1.length = rows2.length
    · by_cases hne : rows1 = []
      · subst hne
        have h0 : rows2 = [] := List.length_eq_zero.mp hlen.symm
        exact absurd ⟨rfl, h0⟩ hemp
      · by_cases harity : ∀ r ∈ rows2, r.length = (rows1.headI).length
        · obtain ⟨b, hb, hiff⟩ := table_equivalent_main hne hlen hrect1 harity
          have hsa : sameArity rows1 rows2 := by
            intro r1 h1 r2 h2
            rw [hrect1 r1 h1, harity r2 h2]
          refine ⟨?_, ?_, ?_⟩
          · rw [hb]
            simp only [Except.ok.injEq]
            constructor
            · intro hbt
              exact ⟨hlen, hsa, hiff.mp hbt⟩
            · rintro ⟨-, -, hex⟩
              exact hiff.mpr hex
          · constructor
            · rintro ⟨e, he⟩
              rw [hb] at he
              cases he
            · rintro ⟨-, hnsa⟩
              exact absurd hsa hnsa
          · intro e he
            rw [hb] at he
            cases he
        · push_neg at harity
          obtain ⟨r2, hr2, hr2ne⟩ := harity
          have herr := table_equivalent_arity_error hne hlen hrect1 ⟨r2, hr2, hr2ne⟩
          have hnsa : ¬ sameArity rows1 rows2 := by
            intro hsa
            obtain ⟨r1, hr1⟩ : ∃ r1, r1 ∈ rows1 := by
              cases rows1 with
              | nil => exact absurd rfl hne
              | cons a t => exact ⟨a, List.mem_cons_self a t⟩
            have h1 := hsa r1 hr1 r2 hr2
            rw [hrect1 r1 hr1] at h1
            exact hr2ne h1.symm
          refine ⟨?_, ?_, ?_⟩
          · rw [herr]
            constructor
            · intro h
              cases h
            · rintro ⟨-, hsa, -⟩
              exact absurd hsa hnsa
          · constructor
            · intro _
              exact ⟨hlen, hnsa⟩
            · intro _
              exact ⟨_, herr⟩
          · intro e he
            rw [herr] at he
            injection he with h2
            exact h2.symm
    · have hres : table_equivalent rows1 rows2 = Except.ok false := by
        unfold table_equivalent
        rw [if_neg hemp, if_pos hlen]
      refine ⟨?_, ?_, ?_⟩
      · rw [hres]
        constructor
        · intro h
          simp at h
        · rintro ⟨hl, -, -⟩
          exact absurd hl hlen
      · constructor
        · rintro ⟨e, he⟩
          rw [hres] at he
          cases he
        · rintro ⟨hl, -⟩
          exact absurd hl hlen
      · intro e he
        rw [hres] at he
        cases he

/-- C4 counterexample: rectangular tables with mismatched arity but also
mismatched row counts return `False`; no `ValueError` is raised because the
row-count check precedes the arity check. -/
theorem arity_mismatch_without_valueerror :
    table_equivalent [[(1 : Int), 2]] [[(3 : Int)], [4]] = Except.ok false := by
  rfl

theorem table_equivalent_characterization_witness :
    table_equivalent [[(1 : Int), 2], [3, 4]] [[(2 : Int), 1], [4, 3]] =
      Except.ok true :=
  (table_equivalent_characterization [[(1 : Int), 2], [3, 4]] [[(2 : Int), 1], [4, 3]]
      (by decide) (by decide)).1.mpr
    ⟨rfl, by unfold sameArity; decide, ⟨[1, 0], by decide, by decide⟩⟩

end TableEquivalence

end Cypher2Sql
